import Mathlib

/-!
Verification of the cutting-board layout optimizer (guillotine 2D packing).

The definitions below are a shallow embedding of the packing core:
the allocator `calculateLayout`, the BSSF placement heuristic
`findBestPlacementOnBoard`, the SLLA splitter `splitFreeRectangle`, the
free-rectangle pruner `pruneFreeRectangles` and the scrap extractor
`calculateStatisticsAndScrap`.  JavaScript numbers are embedded as exact
rationals, and the stable `Array.prototype.sort` is embedded as a stable
insertion sort.  Console logging and wall-clock timing are omitted; the
text of error and warning messages is kept fixed (the interpolated parts
of the original template strings are dropped), since only the presence of
messages is ever observable in the results we verify.
-/

namespace CuttingBoard

/-- Numeric tolerance used throughout the optimizer (1e-5 in the source). -/
def epsilon : ℚ := 1 / 100000

/-- Axis-aligned rectangle: top-left corner plus size, in mm. -/
structure Rectangle where
  x : ℚ
  y : ℚ
  width : ℚ
  length : ℚ
deriving DecidableEq, Inhabited

/-- Free space on a board during the computation (alias, as in the source). -/
abbrev FreeRectangle := Rectangle

/-- Grain direction of a requested piece type. -/
inductive GrainDirection where
  | length
  | width
  | none
deriving DecidableEq, Inhabited

/-- A requested piece type.  Only the fields the packing core reads are
  modelled (the informational `priority` field is never consulted). -/
structure CutPiece where
  id : String
  name : String
  widthMm : ℚ
  lengthMm : ℚ
  quantity : ℚ
  grainDirection : GrainDirection
deriving DecidableEq, Inhabited

/-- The optimization-algorithm selector; accepted but never consulted by
  the scoring code. -/
inductive OptimizationAlgo where
  | waste
  | cuts
  | priority
deriving DecidableEq, Inhabited

/-- Settings bundle for one optimization run. -/
structure CutSettings where
  kerfMm : ℚ
  edgeTrimMm : ℚ
  minScrapWidthMm : ℚ
  minScrapLengthMm : ℚ
  respectGrain : Bool
  optimizationAlgo : OptimizationAlgo
deriving DecidableEq, Inhabited

/-- Stock board dimensions. -/
structure BoardDimensions where
  widthMm : ℚ
  lengthMm : ℚ
deriving DecidableEq, Inhabited

/-- Input bundle of `calculateLayout`. -/
structure OptimizerInput where
  board : BoardDimensions
  pieces : List CutPiece
  settings : CutSettings

/-- One successfully placed piece instance. -/
structure PlacedPiece where
  id : String
  name : String
  boardIndex : ℕ
  isRotated : Bool
  placedWidthMm : ℚ
  placedLengthMm : ℚ
  x : ℚ
  y : ℚ
deriving DecidableEq, Inhabited

/-- A leftover rectangle large enough to be reported as usable scrap. -/
structure UsableScrap where
  x : ℚ
  y : ℚ
  width : ℚ
  length : ℚ
  boardIndex : ℕ
  areaMm2 : ℚ
deriving DecidableEq, Inhabited

/-- Result of one optimization run (timing fields omitted). -/
structure LayoutResult where
  placedPieces : List PlacedPiece
  unplacedPieces : List CutPiece
  boardsUsed : ℕ
  boardDimensions : BoardDimensions
  settingsUsed : CutSettings
  totalPiecesAreaMm2 : ℚ
  totalPlacedPieceAreaMm2 : ℚ
  totalBoardsAreaMm2 : ℚ
  wastePercentage : ℚ
  usableScrap : List UsableScrap
  errors : List String
  warnings : List String

/-- Candidate returned by the placement heuristic. -/
structure PlacementCandidate where
  nodeIndex : ℕ
  placementRect : Rectangle
  isRotated : Bool
  score : ℚ
deriving DecidableEq, Inhabited

/-- Whether a piece may be rotated: always when grain is not respected,
  otherwise only for grain `none` (the ternary in the source). -/
def canRotatePiece (settings : CutSettings) (piece : CutPiece) : Bool :=
  if settings.respectGrain then decide (piece.grainDirection = GrainDirection.none) else true

/-- The comparison against the running best score; `Option.none` plays the
  role of the initial `Infinity`. -/
def betterThan (score : ℚ) : Option PlacementCandidate → Bool
  | Option.none => true
  | Option.some b => decide (score < b.score)

/-- Loop body of `findBestPlacementOnBoard`: walk the free rectangles in
  list order keeping the strictly best (lowest) score, trying the
  unrotated orientation and then, when rotation is allowed, the rotated
  one against the updated running best. -/
def findBestAux (piece : CutPiece) (settings : CutSettings) :
    List FreeRectangle → ℕ → Option PlacementCandidate → Option PlacementCandidate
  | [], _, best => best
  | rect :: rest, i, best =>
    let best1 :=
      if piece.widthMm ≤ rect.width ∧ piece.lengthMm ≤ rect.length then
        let score := min (rect.width - piece.widthMm) (rect.length - piece.lengthMm)
        if betterThan score best then
          Option.some ⟨i, ⟨rect.x, rect.y, piece.widthMm, piece.lengthMm⟩, false, score⟩
        else best
      else best
    let best2 :=
      if canRotatePiece settings piece = true ∧
          piece.lengthMm ≤ rect.width ∧ piece.widthMm ≤ rect.length then
        let score := min (rect.width - piece.lengthMm) (rect.length - piece.widthMm)
        if betterThan score best1 then
          Option.some ⟨i, ⟨rect.x, rect.y, piece.lengthMm, piece.widthMm⟩, true, score⟩
        else best1
      else best1
    findBestAux piece settings rest (i + 1) best2

/-- Best Short Side Fit search over a board's free rectangles. -/
def findBestPlacementOnBoard (piece : CutPiece) (freeRectangles : List FreeRectangle)
    (settings : CutSettings) : Option PlacementCandidate :=
  findBestAux piece settings freeRectangles 0 Option.none

/-- Split Longer Leftover Axis guillotine split of a consumed free
  rectangle around the placed rectangle, with the degenerate-placement and
  containment guard of the source. -/
def splitFreeRectangle (freeRect : FreeRectangle) (placedRect : Rectangle)
    (settings : CutSettings) : List FreeRectangle :=
  let k := settings.kerfMm
  if placedRect.width ≤ epsilon ∨ placedRect.length ≤ epsilon ∨
      placedRect.x < freeRect.x - epsilon ∨ placedRect.y < freeRect.y - epsilon ∨
      placedRect.x + placedRect.width > freeRect.x + freeRect.width + epsilon ∨
      placedRect.y + placedRect.length > freeRect.y + freeRect.length + epsilon then
    []
  else
    let leftoverW := freeRect.width - placedRect.width
    let leftoverL := freeRect.length - placedRect.length
    if leftoverW ≤ leftoverL then
      (if leftoverW - k > epsilon then
        [⟨freeRect.x + placedRect.width + k, freeRect.y, leftoverW - k, freeRect.length⟩]
      else []) ++
      (if leftoverL > epsilon then
        [⟨freeRect.x, freeRect.y + placedRect.length, placedRect.width, leftoverL⟩]
      else [])
    else
      (if leftoverL - k > epsilon then
        [⟨freeRect.x, freeRect.y + placedRect.length + k, freeRect.width, leftoverL - k⟩]
      else []) ++
      (if leftoverW > epsilon then
        [⟨freeRect.x + placedRect.width, freeRect.y, leftoverW, placedRect.length⟩]
      else [])

/-- Containment of rectangle `a` in rectangle `b` up to the tolerance,
  exactly as tested by the pruner. -/
def rectContainedIn (a b : Rectangle) : Bool :=
  decide (b.x - epsilon ≤ a.x) && decide (b.y - epsilon ≤ a.y) &&
  decide (a.x + a.width ≤ b.x + b.width + epsilon) &&
  decide (a.y + a.length ≤ b.y + b.length + epsilon)

/-- Inner loop of the pruner for a fixed outer index `i`: scan the higher
  indices `js`, dropping `j` when mutually contained or contained in `i`,
  and dropping `i` (ending the scan, the `break` of the source) when `i`
  is strictly contained in `j`. -/
def pruneInner (rects : List Rectangle) (i : ℕ) : List ℕ → List ℕ → List ℕ
  | [], kept => kept
  | j :: js, kept =>
    if j ∈ kept then
      let rectI := rects.getD i default
      let rectJ := rects.getD j default
      let iInJ := rectContainedIn rectI rectJ
      let jInI := rectContainedIn rectJ rectI
      if iInJ && jInI then pruneInner rects i js (kept.erase j)
      else if iInJ then kept.erase i
      else if jInI then pruneInner rects i js (kept.erase j)
      else pruneInner rects i js kept
    else pruneInner rects i js kept

/-- Outer loop of the pruner over all indices. -/
def pruneOuter (rects : List Rectangle) : List ℕ → List ℕ → List ℕ
  | [], kept => kept
  | i :: rest, kept =>
    if i ∈ kept then
      pruneOuter rects rest (pruneInner rects i (List.range' (i + 1) (rects.length - (i + 1))) kept)
    else pruneOuter rects rest kept

/-- Remove free rectangles fully contained (within the tolerance) in
  another one of the list.  The kept indices are tracked in ascending
  order, as the insertion-ordered `Set` of the source does. -/
def pruneFreeRectangles (rectangles : List Rectangle) : List Rectangle :=
  if rectangles.length < 2 then rectangles
  else
    let kept := pruneOuter rectangles (List.range rectangles.length) (List.range rectangles.length)
    if kept.length = rectangles.length then rectangles
    else kept.map (fun index => rectangles.getD index default)

/-- Indices `a` and `b` hold rectangles neither of which is contained in
  the other within the tolerance. -/
def rectsResolved (rects : List Rectangle) (a b : ℕ) : Prop :=
  rectContainedIn (rects.getD a default) (rects.getD b default) = false ∧
  rectContainedIn (rects.getD b default) (rects.getD a default) = false

/-- Final free-rectangle state of one board, tagged with its index. -/
structure BoardRec where
  index : ℕ
  freeRectangles : List FreeRectangle
deriving DecidableEq, Inhabited

/-- Descending-area comparison used to sort the scrap list. -/
def scrapAreaGe (a b : UsableScrap) : Prop := b.areaMm2 ≤ a.areaMm2

instance : DecidableRel scrapAreaGe := fun a b => by unfold scrapAreaGe; infer_instance

instance : IsTotal UsableScrap scrapAreaGe := ⟨fun a b => le_total b.areaMm2 a.areaMm2⟩

instance : IsTrans UsableScrap scrapAreaGe := ⟨fun _ _ _ hab hbc => le_trans hbc hab⟩

/-- Collect the usable scrap from the final free rectangles of all boards
  and sort it by descending area (the stable sort of the source). -/
def calculateStatisticsAndScrap (finalBoardData : List BoardRec)
    (settings : CutSettings) : List UsableScrap :=
  let collected := finalBoardData.flatMap (fun board =>
    board.freeRectangles.filterMap (fun rect =>
      if rect.width ≤ epsilon ∨ rect.length ≤ epsilon then Option.none
      else if (settings.minScrapWidthMm - epsilon ≤ rect.width ∧
                settings.minScrapLengthMm - epsilon ≤ rect.length) ∨
              (settings.minScrapLengthMm - epsilon ≤ rect.width ∧
                settings.minScrapWidthMm - epsilon ≤ rect.length) then
        Option.some ⟨rect.x, rect.y, rect.width, rect.length, board.index,
          rect.width * rect.length⟩
      else Option.none))
  List.insertionSort scrapAreaGe collected

/-- JavaScript `Math.round`: floor of x + 1/2. -/
def jsRound (q : ℚ) : ℤ := Int.floor (q + 1 / 2)

/-- Expand one piece type into `max(0, round(quantity))` unit instances. -/
def expandPiece (piece : CutPiece) : List CutPiece :=
  List.replicate (max 0 (jsRound piece.quantity)).toNat { piece with quantity := 1 }

/-- Instance ordering of the source comparator: descending length, then
  descending width.  `pieceBefore a b` holds when the comparator does not
  place `b` strictly before `a`; the source sort is stable, so a stable
  insertion sort along this relation is a faithful embedding. -/
def pieceBefore (a b : CutPiece) : Prop :=
  if a.lengthMm = b.lengthMm then b.widthMm ≤ a.widthMm else b.lengthMm < a.lengthMm

instance : DecidableRel pieceBefore := fun a b => by unfold pieceBefore; infer_instance

/-- The feasibility pre-check used for the oversized-piece warning. -/
def pieceFitsUsable (settings : CutSettings) (usableW usableL : ℚ) (p : CutPiece) : Bool :=
  let canFitNormally := decide (p.widthMm ≤ usableW ∧ p.lengthMm ≤ usableL)
  let canFitRotated := canRotatePiece settings p && decide (p.lengthMm ≤ usableW ∧ p.widthMm ≤ usableL)
  canFitNormally || canFitRotated

/-- Mutable state of the placement loop. -/
structure LoopState where
  boardData : List BoardRec
  placedPiecesList : List PlacedPiece
  unplacedIds : List String
  warningsAcc : List String

/-- Walk the existing boards in creation order and return the first board
  index on which the heuristic finds a placement. -/
def tryExistingBoards (piece : CutPiece) (settings : CutSettings) :
    List BoardRec → ℕ → Option (ℕ × PlacementCandidate)
  | [], _ => Option.none
  | b :: rest, i =>
    match findBestPlacementOnBoard piece b.freeRectangles settings with
    | Option.some c => Option.some (i, c)
    | Option.none => tryExistingBoards piece settings rest (i + 1)

/-- Commit one placement: record the placed piece, replace the consumed
  free rectangle by its split results, and prune the board's list. -/
def applyPlacement (settings : CutSettings) (st : LoopState) (piece : CutPiece)
    (boardIndex : ℕ) (c : PlacementCandidate) : LoopState :=
  let targetBoard := st.boardData.getD boardIndex default
  let removedRect := targetBoard.freeRectangles.getD c.nodeIndex default
  let remaining := targetBoard.freeRectangles.eraseIdx c.nodeIndex
  let newFreeRects := splitFreeRectangle removedRect c.placementRect settings
  let updatedFree := pruneFreeRectangles (remaining ++ newFreeRects)
  { st with
    boardData := st.boardData.set boardIndex { targetBoard with freeRectangles := updatedFree }
    placedPiecesList := st.placedPiecesList ++
      [⟨piece.id, piece.name, boardIndex, c.isRotated, c.placementRect.width,
        c.placementRect.length, c.placementRect.x, c.placementRect.y⟩] }

/-- Record a failed instance: its piece-type id joins the unplaced set. -/
def markUnplaced (st : LoopState) (pieceId : String) : LoopState :=
  if pieceId ∈ st.unplacedIds then st
  else { st with unplacedIds := st.unplacedIds ++ [pieceId] }

/-- Process one piece instance: try the existing boards, then open a new
  board when the usable-area template admits the piece at all, otherwise
  mark it unplaced. -/
def placePiece (settings : CutSettings) (initialUsableRect : Option FreeRectangle)
    (st : LoopState) (piece : CutPiece) : LoopState :=
  match tryExistingBoards piece settings st.boardData 0 with
  | Option.some (bi, c) => applyPlacement settings st piece bi c
  | Option.none =>
    match initialUsableRect with
    | Option.some r =>
      match findBestPlacementOnBoard piece [r] settings with
      | Option.some _ =>
        let newBoardIndex := st.boardData.length
        let st1 := { st with boardData := st.boardData ++ [⟨newBoardIndex, [r]⟩] }
        match findBestPlacementOnBoard piece [r] settings with
        | Option.some c => applyPlacement settings st1 piece newBoardIndex c
        | Option.none =>
          markUnplaced
            { st1 with warningsAcc :=
                st1.warningsAcc ++ ["Placement logic error for piece on new board."] }
            piece.id
      | Option.none => markUnplaced st piece.id
    | Option.none => markUnplaced st piece.id

/-- The usable width after edge trim (a `let` of the source entry point). -/
def usableWidthOf (input : OptimizerInput) : ℚ :=
  input.board.widthMm - 2 * input.settings.edgeTrimMm

/-- The usable length after edge trim (a `let` of the source entry point). -/
def usableLengthOf (input : OptimizerInput) : ℚ :=
  input.board.lengthMm - 2 * input.settings.edgeTrimMm

/-- The fatal validation errors, accumulated in source order. -/
def validationErrors (input : OptimizerInput) : List String :=
  (if input.board.widthMm ≤ 0 ∨ input.board.lengthMm ≤ 0 then
    ["Board dimensions must be positive."] else []) ++
  (if input.settings.kerfMm < 0 then ["Kerf cannot be negative."] else []) ++
  (if input.settings.edgeTrimMm < 0 then ["Edge trim cannot be negative."] else []) ++
  (if input.settings.minScrapWidthMm < 0 ∨ input.settings.minScrapLengthMm < 0 then
    ["Minimum scrap dimensions cannot be negative."] else []) ++
  (if (usableWidthOf input ≤ 0 ∨ usableLengthOf input ≤ 0) ∧ 0 < input.settings.edgeTrimMm then
    ["Edge trim is too large for board dimensions."] else [])

/-- Piece types that fit the usable area in no allowed orientation. -/
def unplaceableDueToSize (input : OptimizerInput) : List CutPiece :=
  input.pieces.filter
    (fun p => ! pieceFitsUsable input.settings (usableWidthOf input) (usableLengthOf input) p)

/-- The warnings generated before the placement loop. -/
def layoutWarnings0 (input : OptimizerInput) : List String :=
  if 0 < (unplaceableDueToSize input).length then
    ["Found piece types larger than the usable board area."] else []

/-- Total requested piece area. -/
def totalPiecesAreaOf (input : OptimizerInput) : ℚ :=
  input.pieces.foldl (fun sum p => sum + p.widthMm * p.lengthMm * max 0 p.quantity) 0

/-- Ordered unit piece instances for the placement loop. -/
def pieceInstancesOf (input : OptimizerInput) : List CutPiece :=
  List.insertionSort pieceBefore (input.pieces.flatMap expandPiece)

/-- The single free rectangle a fresh board starts with, when the usable
  area is non-degenerate. -/
def initialUsableRectOf (input : OptimizerInput) : Option FreeRectangle :=
  if 0 < usableWidthOf input ∧ 0 < usableLengthOf input then
    Option.some ⟨input.settings.edgeTrimMm, input.settings.edgeTrimMm,
      usableWidthOf input, usableLengthOf input⟩
  else Option.none

/-- The loop state before any piece is processed. -/
def initialStateOf (input : OptimizerInput) : LoopState :=
  match initialUsableRectOf input with
  | Option.some r => ⟨[⟨0, [r]⟩], [], [], layoutWarnings0 input⟩
  | Option.none =>
    ⟨[], [], [], layoutWarnings0 input ++ ["No usable area on board after edge trim."]⟩

/-- The loop state after all piece instances have been processed. -/
def finalStateOf (input : OptimizerInput) : LoopState :=
  (pieceInstancesOf input).foldl
    (placePiece input.settings (initialUsableRectOf input)) (initialStateOf input)

/-- The optimizer entry point. -/
def calculateLayout (input : OptimizerInput) : LayoutResult :=
  if 0 < (validationErrors input).length then
    { placedPieces := [], unplacedPieces := input.pieces, boardsUsed := 0,
      boardDimensions := input.board, settingsUsed := input.settings,
      totalPiecesAreaMm2 := totalPiecesAreaOf input, totalPlacedPieceAreaMm2 := 0,
      totalBoardsAreaMm2 := 0, wastePercentage := 100, usableScrap := [],
      errors := validationErrors input, warnings := layoutWarnings0 input }
  else
    let stF := finalStateOf input
    let finalUsableScrap := calculateStatisticsAndScrap stF.boardData input.settings
    let finalPlacedPieceArea :=
      stF.placedPiecesList.foldl (fun sum p => sum + p.placedWidthMm * p.placedLengthMm) 0
    let finalBoardsUsedCount :=
      if 0 < stF.boardData.length ∧ 0 < stF.placedPiecesList.length then
        stF.boardData.length else 0
    let finalTotalBoardArea :=
      (finalBoardsUsedCount : ℚ) * input.board.widthMm * input.board.lengthMm
    let finalWastePerc :=
      if 0 < finalTotalBoardArea then
        max 0 (100 * (1 - finalPlacedPieceArea / finalTotalBoardArea))
      else if 0 < totalPiecesAreaOf input then 100 else 0
    { placedPieces := stF.placedPiecesList,
      unplacedPieces := input.pieces.filter (fun p => decide (p.id ∈ stF.unplacedIds)),
      boardsUsed := finalBoardsUsedCount,
      boardDimensions := input.board, settingsUsed := input.settings,
      totalPiecesAreaMm2 := totalPiecesAreaOf input,
      totalPlacedPieceAreaMm2 := finalPlacedPieceArea,
      totalBoardsAreaMm2 := finalTotalBoardArea,
      wastePercentage := finalWastePerc,
      usableScrap := finalUsableScrap,
      errors := validationErrors input, warnings := stF.warningsAcc }

/-! Geometry predicates used to state the invariants. -/

/-- Right edge coordinate of a rectangle. -/
def Rectangle.xEnd (r : Rectangle) : ℚ := r.x + r.width

/-- Bottom edge coordinate of a rectangle. -/
def Rectangle.yEnd (r : Rectangle) : ℚ := r.y + r.length

/-- Two axis-aligned rectangles overlap when their interiors meet; sharing
  only an edge does not count as overlap. -/
def overlapRects (a b : Rectangle) : Prop :=
  a.x < b.xEnd ∧ b.x < a.xEnd ∧ a.y < b.yEnd ∧ b.y < a.yEnd

/-- Rectangle `a` lies inside rectangle `b` (exact, no tolerance). -/
def insideRect (a b : Rectangle) : Prop :=
  b.x ≤ a.x ∧ b.y ≤ a.y ∧ a.xEnd ≤ b.xEnd ∧ a.yEnd ≤ b.yEnd

/-- The rectangle a placed piece occupies on its board. -/
def PlacedPiece.rect (pp : PlacedPiece) : Rectangle :=
  ⟨pp.x, pp.y, pp.placedWidthMm, pp.placedLengthMm⟩

/-- The usable area rectangle of a board after edge trim. -/
def usableRectOf (input : OptimizerInput) : Rectangle :=
  ⟨input.settings.edgeTrimMm, input.settings.edgeTrimMm,
    input.board.widthMm - 2 * input.settings.edgeTrimMm,
    input.board.lengthMm - 2 * input.settings.edgeTrimMm⟩

/-- What a placement candidate returned for the free rectangle `F`
  guarantees: it sits at the top-left corner of `F`, fits inside `F`, and
  carries the piece's dimensions, swapped exactly when rotated, rotation
  being taken only when allowed. -/
def candidateMatches (piece : CutPiece) (settings : CutSettings) (F : FreeRectangle)
    (c : PlacementCandidate) : Prop :=
  c.placementRect.x = F.x ∧ c.placementRect.y = F.y ∧
  c.placementRect.width ≤ F.width ∧ c.placementRect.length ≤ F.length ∧
  ((c.isRotated = false ∧ c.placementRect.width = piece.widthMm ∧
      c.placementRect.length = piece.lengthMm) ∨
   (c.isRotated = true ∧ c.placementRect.width = piece.lengthMm ∧
      c.placementRect.length = piece.widthMm ∧ canRotatePiece settings piece = true))

/-! A specification-level presentation of the BSSF search, modelled from
the spec's words: enumerate the candidates in free-rectangle list order,
the unrotated orientation before the rotated one, and keep the first
candidate achieving the globally lowest score. -/

/-- Modelled from the spec: the (up to two) admissible candidates one free
  rectangle contributes, unrotated first, with the BSSF scores of
  section 4.3. -/
def orientationCands (piece : CutPiece) (settings : CutSettings) (i : ℕ)
    (rect : FreeRectangle) : List PlacementCandidate :=
  (if piece.widthMm ≤ rect.width ∧ piece.lengthMm ≤ rect.length then
    [⟨i, ⟨rect.x, rect.y, piece.widthMm, piece.lengthMm⟩, false,
      min (rect.width - piece.widthMm) (rect.length - piece.lengthMm)⟩]
  else []) ++
  (if canRotatePiece settings piece = true ∧
      piece.lengthMm ≤ rect.width ∧ piece.widthMm ≤ rect.length then
    [⟨i, ⟨rect.x, rect.y, piece.lengthMm, piece.widthMm⟩, true,
      min (rect.width - piece.lengthMm) (rect.length - piece.widthMm)⟩]
  else [])

/-- Modelled from the spec: all admissible candidates in enumeration
  order, starting at node index `i`. -/
def bssfCandidatesAux (piece : CutPiece) (settings : CutSettings) :
    List FreeRectangle → ℕ → List PlacementCandidate
  | [], _ => []
  | rect :: rest, i =>
    orientationCands piece settings i rect ++ bssfCandidatesAux piece settings rest (i + 1)

/-- Modelled from the spec: the full candidate enumeration of the BSSF
  search. -/
def bssfCandidates (piece : CutPiece) (settings : CutSettings)
    (freeRectangles : List FreeRectangle) : List PlacementCandidate :=
  bssfCandidatesAux piece settings freeRectangles 0

/-- One step of the running-best selection: replace the best only on a
  strictly lower score. -/
def stepBest (b : Option PlacementCandidate) (c : PlacementCandidate) :
    Option PlacementCandidate :=
  if betterThan c.score b then Option.some c else b

/-- The running-best selection over a candidate list. -/
def foldBest (cs : List PlacementCandidate) (b : Option PlacementCandidate) :
    Option PlacementCandidate :=
  cs.foldl stepBest b

/-- Modelled from the spec: the SLLA split description of section 4.5 —
  containment of the placed rectangle checked within the tolerance, then
  the two-branch guillotine split choosing the primary cut along the
  longer leftover axis, with the kerf subtracted once from the
  full-length complementary rectangle. -/
def sllaSpec (freeRect placedRect : Rectangle) (settings : CutSettings) : List FreeRectangle :=
  let k := settings.kerfMm
  if rectContainedIn placedRect freeRect then
    let leftoverW := freeRect.width - placedRect.width
    let leftoverL := freeRect.length - placedRect.length
    if leftoverW ≤ leftoverL then
      (if epsilon < leftoverW - k then
        [⟨freeRect.x + placedRect.width + k, freeRect.y, leftoverW - k, freeRect.length⟩]
      else []) ++
      (if epsilon < leftoverL then
        [⟨freeRect.x, freeRect.y + placedRect.length, placedRect.width, leftoverL⟩]
      else [])
    else
      (if epsilon < leftoverL - k then
        [⟨freeRect.x, freeRect.y + placedRect.length + k, freeRect.width, leftoverL - k⟩]
      else []) ++
      (if epsilon < leftoverW then
        [⟨freeRect.x + placedRect.width, freeRect.y, leftoverW, placedRect.length⟩]
      else [])
  else []

/-! The allocator-loop invariant. -/

/-- Free-rectangle list of the board at position `i` (empty beyond the
  current board count). -/
def boardFree (st : LoopState) (i : ℕ) : List FreeRectangle :=
  (st.boardData.getD i default).freeRectangles

/-- Invariant of the placement loop relative to the usable rectangle `U`:
  placed pieces live on existing boards inside `U` and are mutually
  disjoint per board, and each board's free rectangles lie inside `U`,
  avoid every piece placed on that board, and are mutually disjoint. -/
structure LoopInv (U : Rectangle) (st : LoopState) : Prop where
  idxLt : ∀ pp ∈ st.placedPiecesList, pp.boardIndex < st.boardData.length
  placedInside : ∀ pp ∈ st.placedPiecesList, insideRect pp.rect U
  placedDisj : st.placedPiecesList.Pairwise
    (fun a b => a.boardIndex = b.boardIndex → ¬ overlapRects a.rect b.rect)
  freeInside : ∀ i, ∀ F ∈ boardFree st i, insideRect F U
  freePlacedDisj : ∀ i, ∀ F ∈ boardFree st i, ∀ pp ∈ st.placedPiecesList,
    pp.boardIndex = i → ¬ overlapRects F pp.rect
  freeDisj : ∀ i, (boardFree st i).Pairwise (fun a b => ¬ overlapRects a b)

/-- Rotation bookkeeping: every rotated placed piece stems from a piece
  type whose grain permits rotation. -/
def rotInv (pieces : List CutPiece) (st : LoopState) : Prop :=
  ∀ pp ∈ st.placedPiecesList, pp.isRotated = true →
    ∃ p ∈ pieces, p.id = pp.id ∧ p.grainDirection = GrainDirection.none

/-! Concrete inputs for the scenario claims. -/

/-- Piece type of scenario A: 1200 by 600, quantity 3. -/
def pieceA : CutPiece := ⟨"pA", "panelA", 1200, 600, 3, GrainDirection.length⟩

/-- Settings of scenario A: kerf 3, edge trim 5, grain not respected. -/
def settingsA : CutSettings := ⟨3, 5, 50, 50, false, OptimizationAlgo.waste⟩

/-- Scenario A input: board 2440 by 1220. -/
def inputA : OptimizerInput := ⟨⟨2440, 1220⟩, [pieceA], settingsA⟩

/-- Piece type of scenario B: 60 by 60, quantity 2. -/
def pieceB : CutPiece := ⟨"pB", "squareB", 60, 60, 2, GrainDirection.none⟩

/-- Settings of scenario B: kerf 0, edge trim 0. -/
def settingsB : CutSettings := ⟨0, 0, 50, 50, true, OptimizationAlgo.waste⟩

/-- Scenario B input: board 100 by 100. -/
def inputB : OptimizerInput := ⟨⟨100, 100⟩, [pieceB], settingsB⟩

/-- A fatally invalid input: negative kerf. -/
def inputBad : OptimizerInput :=
  ⟨⟨100, 100⟩, [pieceB], ⟨-1, 0, 50, 50, true, OptimizationAlgo.waste⟩⟩

/-! Basic geometry lemmas. -/

theorem not_overlapRects_comm {a b : Rectangle} (h : ¬ overlapRects a b) : ¬ overlapRects b a :=
  fun hba => h ⟨hba.2.1, hba.1, hba.2.2.2, hba.2.2.1⟩

theorem insideRect_refl (a : Rectangle) : insideRect a a :=
  ⟨le_refl _, le_refl _, le_refl _, le_refl _⟩

theorem insideRect_trans {a b c : Rectangle} (hab : insideRect a b) (hbc : insideRect b c) :
    insideRect a c :=
  ⟨hbc.1.trans hab.1, hbc.2.1.trans hab.2.1,
    hab.2.2.1.trans hbc.2.2.1, hab.2.2.2.trans hbc.2.2.2⟩

theorem not_overlap_of_inside {p F q : Rectangle} (hin : insideRect p F)
    (h : ¬ overlapRects F q) : ¬ overlapRects p q :=
  fun hov => h ⟨lt_of_le_of_lt hin.1 hov.1, lt_of_lt_of_le hov.2.1 hin.2.2.1,
    lt_of_le_of_lt hin.2.1 hov.2.2.1, lt_of_lt_of_le hov.2.2.2 hin.2.2.2⟩

/-! The BSSF search as the first strict minimum over the candidate
enumeration. -/

theorem foldBest_append (cs ds : List PlacementCandidate) (b : Option PlacementCandidate) :
    foldBest (cs ++ ds) b = foldBest ds (foldBest cs b) :=
  List.foldl_append stepBest b cs ds

theorem findBestAux_eq_foldBest (piece : CutPiece) (settings : CutSettings) :
    ∀ (rs : List FreeRectangle) (i : ℕ) (b : Option PlacementCandidate),
      findBestAux piece settings rs i b = foldBest (bssfCandidatesAux piece settings rs i) b := by
  intro rs
  induction rs with
  | nil => intro i b; rfl
  | cons rect rest ih =>
    intro i b
    simp only [findBestAux, bssfCandidatesAux, foldBest_append, ih]
    congr 1
    by_cases h1 : piece.widthMm ≤ rect.width ∧ piece.lengthMm ≤ rect.length <;>
      by_cases h2 : canRotatePiece settings piece = true ∧
        piece.lengthMm ≤ rect.width ∧ piece.widthMm ≤ rect.length <;>
      simp [orientationCands, h1, h2, foldBest, stepBest]

theorem findBest_eq_foldBest (piece : CutPiece) (rs : List FreeRectangle)
    (settings : CutSettings) :
    findBestPlacementOnBoard piece rs settings =
      foldBest (bssfCandidates piece settings rs) Option.none :=
  findBestAux_eq_foldBest piece settings rs 0 Option.none

theorem foldBest_some_of_some :
    ∀ (cs : List PlacementCandidate) (b : PlacementCandidate),
      ∃ c, foldBest cs (Option.some b) = Option.some c := by
  intro cs
  induction cs with
  | nil => intro b; exact ⟨b, rfl⟩
  | cons x cs ih =>
    intro b
    show ∃ c, foldBest cs (stepBest (Option.some b) x) = _
    unfold stepBest
    by_cases h : betterThan x.score (Option.some b) = true
    · rw [if_pos h]; exact ih x
    · rw [if_neg h]; exact ih b

theorem foldBest_some_spec :
    ∀ (cs : List PlacementCandidate) (b c : PlacementCandidate),
      foldBest cs (Option.some b) = Option.some c →
      (c = b ∧ ∀ x ∈ cs, b.score ≤ x.score) ∨
      (∃ k, ∃ hk : k < cs.length, cs.get ⟨k, hk⟩ = c ∧ c.score < b.score ∧
        (∀ m, ∀ hm : m < k, c.score < (cs.get ⟨m, hm.trans hk⟩).score) ∧
        ∀ x ∈ cs, c.score ≤ x.score) := by
  intro cs
  induction cs with
  | nil =>
    intro b c h
    left
    refine ⟨(Option.some_injective _ h).symm, ?_⟩
    intro x hx; cases hx
  | cons x cs ih =>
    intro b c h
    have hstep : foldBest (x :: cs) (Option.some b) = foldBest cs (stepBest (Option.some b) x) := rfl
    rw [hstep] at h
    rw [stepBest, betterThan] at h
    by_cases hlt : x.score < b.score
    · rw [if_pos (decide_eq_true hlt)] at h
      rcases ih x c h with ⟨hcx, hall⟩ | ⟨k, hk, hget, hsc, hearly, hall⟩
      · right
        refine ⟨0, Nat.succ_pos _, by simpa using hcx.symm, by rw [hcx]; exact hlt, ?_, ?_⟩
        · intro m hm; cases hm
        · intro y hy
          rcases List.mem_cons.mp hy with rfl | hy
          · rw [hcx]
          · rw [hcx]; exact hall y hy
      · right
        refine ⟨k + 1, Nat.succ_lt_succ hk, by simpa using hget, hsc.trans hlt, ?_, ?_⟩
        · intro m hm
          cases m with
          | zero => simpa using hsc
          | succ m => simpa using hearly m (Nat.lt_of_succ_lt_succ hm)
        · intro y hy
          rcases List.mem_cons.mp hy with rfl | hy
          · exact le_of_lt hsc
          · exact hall y hy
    · rw [if_neg (by simpa using hlt)] at h
      rcases ih b c h with ⟨hcb, hall⟩ | ⟨k, hk, hget, hsc, hearly, hall⟩
      · left
        refine ⟨hcb, ?_⟩
        intro y hy
        rcases List.mem_cons.mp hy with rfl | hy
        · exact le_of_not_lt hlt
        · exact hall y hy
      · right
        refine ⟨k + 1, Nat.succ_lt_succ hk, by simpa using hget, hsc, ?_, ?_⟩
        · intro m hm
          cases m with
          | zero => simpa using lt_of_lt_of_le hsc (le_of_not_lt hlt)
          | succ m => simpa using hearly m (Nat.lt_of_succ_lt_succ hm)
        · intro y hy
          rcases List.mem_cons.mp hy with rfl | hy
          · exact le_of_lt (lt_of_lt_of_le hsc (le_of_not_lt hlt))
          · exact hall y hy

theorem foldBest_none_iff (cs : List PlacementCandidate) :
    foldBest cs Option.none = Option.none ↔ cs = [] := by
  constructor
  · intro h
    cases cs with
    | nil => rfl
    | cons x cs =>
      exfalso
      have hstep : foldBest (x :: cs) Option.none = foldBest cs (Option.some x) := rfl
      rw [hstep] at h
      rcases foldBest_some_of_some cs x with ⟨c, hc⟩
      rw [hc] at h
      cases h
  · intro h; subst h; rfl

theorem foldBest_none_spec (cs : List PlacementCandidate) (c : PlacementCandidate)
    (h : foldBest cs Option.none = Option.some c) :
    ∃ k, ∃ hk : k < cs.length, cs.get ⟨k, hk⟩ = c ∧
      (∀ m, ∀ hm : m < k, c.score < (cs.get ⟨m, hm.trans hk⟩).score) ∧
      ∀ x ∈ cs, c.score ≤ x.score := by
  cases cs with
  | nil => cases h
  | cons x cs =>
    have hstep : foldBest (x :: cs) Option.none = foldBest cs (Option.some x) := rfl
    rw [hstep] at h
    rcases foldBest_some_spec cs x c h with ⟨hcx, hall⟩ | ⟨k, hk, hget, hsc, hearly, hall⟩
    · refine ⟨0, Nat.succ_pos _, by simpa using hcx.symm, ?_, ?_⟩
      · intro m hm; cases hm
      · intro y hy
        rcases List.mem_cons.mp hy with rfl | hy
        · rw [hcx]
        · rw [hcx]; exact hall y hy
    · refine ⟨k + 1, Nat.succ_lt_succ hk, by simpa using hget, ?_, ?_⟩
      · intro m hm
        cases m with
        | zero => simpa using hsc
        | succ m => simpa using hearly m (Nat.lt_of_succ_lt_succ hm)
      · intro y hy
        rcases List.mem_cons.mp hy with rfl | hy
        · exact le_of_lt hsc
        · exact hall y hy

theorem mem_bssfCandidatesAux (piece : CutPiece) (settings : CutSettings) :
    ∀ (rs : List FreeRectangle) (i : ℕ) (c : PlacementCandidate),
      c ∈ bssfCandidatesAux piece settings rs i →
      ∃ j, ∃ hj : j < rs.length, c.nodeIndex = i + j ∧
        candidateMatches piece settings (rs.get ⟨j, hj⟩) c := by
  intro rs
  induction rs with
  | nil => intro i c h; cases h
  | cons rect rest ih =>
    intro i c h
    rcases List.mem_append.mp h with hhead | htail
    · refine ⟨0, Nat.succ_pos _, ?_⟩
      unfold orientationCands at hhead
      rcases List.mem_append.mp hhead with h1 | h2
      · by_cases hc : piece.widthMm ≤ rect.width ∧ piece.lengthMm ≤ rect.length
        · rw [if_pos hc] at h1
          rcases List.mem_singleton.mp h1 with rfl
          exact ⟨rfl, rfl, rfl, hc.1, hc.2, Or.inl ⟨rfl, rfl, rfl⟩⟩
        · rw [if_neg hc] at h1; cases h1
      · by_cases hc : canRotatePiece settings piece = true ∧
          piece.lengthMm ≤ rect.width ∧ piece.widthMm ≤ rect.length
        · rw [if_pos hc] at h2
          rcases List.mem_singleton.mp h2 with rfl
          exact ⟨rfl, rfl, rfl, hc.2.1, hc.2.2, Or.inr ⟨rfl, rfl, rfl, hc.1⟩⟩
        · rw [if_neg hc] at h2; cases h2
    · rcases ih (i + 1) c htail with ⟨j, hj, hidx, hmatch⟩
      refine ⟨j + 1, Nat.succ_lt_succ hj, by omega, by simpa using hmatch⟩

theorem findBest_some_valid (piece : CutPiece) (rs : List FreeRectangle)
    (settings : CutSettings) (c : PlacementCandidate)
    (h : findBestPlacementOnBoard piece rs settings = Option.some c) :
    ∃ hn : c.nodeIndex < rs.length,
      candidateMatches piece settings (rs.get ⟨c.nodeIndex, hn⟩) c := by
  rw [findBest_eq_foldBest] at h
  rcases foldBest_none_spec _ _ h with ⟨k, hk, hget, -, -⟩
  have hmem : c ∈ bssfCandidates piece settings rs := hget ▸ List.get_mem _ _ _
  rcases mem_bssfCandidatesAux piece settings rs 0 c hmem with ⟨j, hj, hidx, hmatch⟩
  have hn : c.nodeIndex < rs.length := by omega
  refine ⟨hn, ?_⟩
  have hje : c.nodeIndex = j := by omega
  revert hn
  rw [hje]
  intro hn
  exact hmatch

/-! Geometric soundness of the SLLA split. -/

theorem epsilon_pos : (0 : ℚ) < epsilon := by norm_num [epsilon]

theorem splitFreeRectangle_props (F p : Rectangle) (s : CutSettings)
    (hk : 0 ≤ s.kerfMm) (hx : p.x = F.x) (hy : p.y = F.y)
    (hw : p.width ≤ F.width) (hl : p.length ≤ F.length) :
    (∀ r ∈ splitFreeRectangle F p s, insideRect r F ∧ ¬ overlapRects r p) ∧
    (splitFreeRectangle F p s).Pairwise (fun a b => ¬ overlapRects a b) := by
  have he : (0 : ℚ) < epsilon := epsilon_pos
  simp only [splitFreeRectangle]
  split_ifs with hguard hbr he1 he2 he2 he3 he4 he4
  case pos =>
    exact ⟨fun r hr => absurd hr (List.not_mem_nil r), List.Pairwise.nil⟩
  all_goals
    push_neg at hguard
    obtain ⟨hpw, hpl, -, -, -, -⟩ := hguard
  all_goals
    constructor
  all_goals
    simp only [List.singleton_append, List.nil_append, List.append_nil,
      List.pairwise_cons, List.not_mem_nil, List.mem_singleton,
      List.mem_cons, and_true, IsEmpty.forall_iff, forall_const,
      implies_true, true_and, forall_eq, or_false, false_or]
  all_goals
    try exact trivial
  all_goals
    simp only [insideRect, overlapRects, Rectangle.xEnd, Rectangle.yEnd, not_and, not_lt]
  -- remaining goals: membership facts and pairwise disjointness, all linear arithmetic
  all_goals
    first
    | (rintro r (rfl | rfl) <;> (try dsimp only) <;>
        exact ⟨⟨by linarith, by linarith, by linarith, by linarith⟩, by intros; linarith⟩)
    | (rintro r rfl
       try dsimp only
       first
       | exact ⟨⟨by linarith, by linarith, by linarith, by linarith⟩, by intros; linarith⟩
       | (intros; linarith))
    | (refine ⟨?_, List.Pairwise.nil⟩
       try dsimp only
       intros; linarith)
    | exact ⟨⟨by linarith, by linarith, by linarith, by linarith⟩, by intros; linarith⟩
    | exact List.Pairwise.nil
    | (try dsimp only
       intros; linarith)

/-! Sublist and membership facts for the pruner. -/

theorem pruneInner_sublist (rects : List Rectangle) (i : ℕ) :
    ∀ (js kept : List ℕ), List.Sublist (pruneInner rects i js kept) kept := by
  intro js
  induction js with
  | nil => intro kept; exact List.Sublist.refl _
  | cons j js ih =>
    intro kept
    simp only [pruneInner]
    split_ifs with hmem hc1 hc2 hc3
    · exact (ih (kept.erase j)).trans (List.erase_sublist j kept)
    · exact List.erase_sublist i kept
    · exact (ih (kept.erase j)).trans (List.erase_sublist j kept)
    · exact ih kept
    · exact ih kept

theorem pruneOuter_sublist (rects : List Rectangle) :
    ∀ (idxs kept : List ℕ), List.Sublist (pruneOuter rects idxs kept) kept := by
  intro idxs
  induction idxs with
  | nil => intro kept; exact List.Sublist.refl _
  | cons i rest ih =>
    intro kept
    simp only [pruneOuter]
    split_ifs with hmem
    · exact (ih _).trans (pruneInner_sublist rects i _ kept)
    · exact ih kept

theorem map_getD_range {α : Type} [Inhabited α] :
    ∀ l : List α, (List.range l.length).map (fun i => l.getD i default) = l := by
  intro l
  induction l with
  | nil => rfl
  | cons a l ih =>
    rw [List.length_cons, List.range_succ_eq_map, List.map_cons, List.map_map]
    have htail : (List.range l.length).map ((fun i => (a :: l).getD i default) ∘ (· + 1))
        = (List.range l.length).map (fun i => l.getD i default) := by
      apply List.map_congr_left
      intro i _
      simp [Function.comp, List.getD_cons_succ]
    rw [htail, ih]
    simp [List.getD_cons_zero]

theorem pruneFreeRectangles_sublist (l : List Rectangle) :
    List.Sublist (pruneFreeRectangles l) l := by
  simp only [pruneFreeRectangles]
  split_ifs with hlen hkeep
  · exact List.Sublist.refl _
  · exact List.Sublist.refl _
  · have hsub := pruneOuter_sublist l (List.range l.length) (List.range l.length)
    have hmap := hsub.map (fun i => l.getD i default)
    rw [map_getD_range] at hmap
    exact hmap

theorem mem_of_mem_pruneFreeRectangles {l : List Rectangle} {r : Rectangle}
    (h : r ∈ pruneFreeRectangles l) : r ∈ l :=
  (pruneFreeRectangles_sublist l).subset h

theorem pairwise_pruneFreeRectangles {R : Rectangle → Rectangle → Prop} {l : List Rectangle}
    (h : l.Pairwise R) : (pruneFreeRectangles l).Pairwise R :=
  h.sublist (pruneFreeRectangles_sublist l)

/-! Relating the removed free rectangle to the remaining ones. -/

theorem rel_of_mem_eraseIdx {α : Type} {R : α → α → Prop} :
    ∀ (l : List α) (n : ℕ) (hn : n < l.length), l.Pairwise R →
      ∀ G ∈ l.eraseIdx n, R (l.get ⟨n, hn⟩) G ∨ R G (l.get ⟨n, hn⟩) := by
  intro l
  induction l with
  | nil => intro n hn; exact absurd hn (Nat.not_lt_zero n)
  | cons a l ih =>
    intro n hn hp G hG
    cases n with
    | zero =>
      left
      exact (List.pairwise_cons.mp hp).1 G hG
    | succ n =>
      have hG' : G ∈ a :: l.eraseIdx n := hG
      rcases List.mem_cons.mp hG' with rfl | hG2
      · right
        exact (List.pairwise_cons.mp hp).1 _ (List.get_mem _ _ _)
      · exact ih n (Nat.lt_of_succ_lt_succ hn) (List.pairwise_cons.mp hp).2 G hG2

/-! The board scan of the allocator. -/

theorem tryExistingBoards_some (piece : CutPiece) (settings : CutSettings) :
    ∀ (boards : List BoardRec) (i0 bi : ℕ) (c : PlacementCandidate),
      tryExistingBoards piece settings boards i0 = Option.some (bi, c) →
      ∃ k, ∃ hk : k < boards.length, bi = i0 + k ∧
        findBestPlacementOnBoard piece (boards.get ⟨k, hk⟩).freeRectangles settings =
          Option.some c := by
  intro boards
  induction boards with
  | nil => intro i0 bi c h; cases h
  | cons b rest ih =>
    intro i0 bi c h
    simp only [tryExistingBoards] at h
    cases hfb : findBestPlacementOnBoard piece b.freeRectangles settings with
    | some c0 =>
      rw [hfb] at h
      simp only [Option.some.injEq, Prod.mk.injEq] at h
      obtain ⟨rfl, rfl⟩ := h
      exact ⟨0, Nat.succ_pos _, by omega, hfb⟩
    | none =>
      rw [hfb] at h
      rcases ih (i0 + 1) bi c h with ⟨k, hk, hbi, hf⟩
      exact ⟨k + 1, Nat.succ_lt_succ hk, by omega, hf⟩

/-! Auxiliary getD computations for the mutable board list. -/

theorem getD_set_self {α : Type} [Inhabited α] (l : List α) (n : ℕ) (a : α)
    (h : n < l.length) : (l.set n a).getD n default = a := by
  simp [List.getD, List.getElem?_set_self, h]

theorem getD_set_ne {α : Type} [Inhabited α] (l : List α) (m n : ℕ) (a : α)
    (h : m ≠ n) : (l.set n a).getD m default = l.getD m default := by
  simp [List.getD, List.getElem?_set_ne (Ne.symm h)]

theorem getD_append_right_self {α : Type} [Inhabited α] (l : List α) (b : α) :
    (l ++ [b]).getD l.length default = b := by
  simp [List.getD, List.getElem?_append_right (Nat.le_refl _)]

theorem getD_append_left {α : Type} [Inhabited α] (l : List α) (b : α) (i : ℕ)
    (h : i < l.length) : (l ++ [b]).getD i default = l.getD i default := by
  simp [List.getD, List.getElem?_append_left h]

theorem getD_ge_length {α : Type} [Inhabited α] (l : List α) (i : ℕ)
    (h : l.length ≤ i) : l.getD i default = default := by
  simp [List.getD, List.getElem?_eq_none h]

/-! Computation lemmas for one placement commit. -/

theorem applyPlacement_boardData (settings : CutSettings) (st : LoopState) (piece : CutPiece)
    (bi : ℕ) (c : PlacementCandidate) :
    (applyPlacement settings st piece bi c).boardData =
      st.boardData.set bi
        { st.boardData.getD bi default with
          freeRectangles := pruneFreeRectangles ((boardFree st bi).eraseIdx c.nodeIndex ++ splitFreeRectangle ((boardFree st bi).getD c.nodeIndex default) c.placementRect settings) } := rfl

theorem applyPlacement_placed (settings : CutSettings) (st : LoopState) (piece : CutPiece)
    (bi : ℕ) (c : PlacementCandidate) :
    (applyPlacement settings st piece bi c).placedPiecesList =
      st.placedPiecesList ++
        [⟨piece.id, piece.name, bi, c.isRotated, c.placementRect.width,
          c.placementRect.length, c.placementRect.x, c.placementRect.y⟩] := rfl

theorem applyPlacement_length (settings : CutSettings) (st : LoopState) (piece : CutPiece)
    (bi : ℕ) (c : PlacementCandidate) :
    (applyPlacement settings st piece bi c).boardData.length = st.boardData.length := by
  rw [applyPlacement_boardData]
  exact List.length_set st.boardData bi _

theorem boardFree_applyPlacement (settings : CutSettings) (st : LoopState) (piece : CutPiece)
    (bi : ℕ) (c : PlacementCandidate) (hbi : bi < st.boardData.length) (i : ℕ) :
    boardFree (applyPlacement settings st piece bi c) i =
      if i = bi then
        pruneFreeRectangles ((boardFree st bi).eraseIdx c.nodeIndex ++
          splitFreeRectangle ((boardFree st bi).getD c.nodeIndex default)
            c.placementRect settings)
      else boardFree st i := by
  show ((applyPlacement settings st piece bi c).boardData.getD i default).freeRectangles = _
  rw [applyPlacement_boardData]
  by_cases h : i = bi
  · subst h
    rw [if_pos rfl, getD_set_self _ _ _ hbi]
  · rw [if_neg h, getD_set_ne _ _ _ _ h]
    rfl

/-! Invariant preservation. -/

theorem applyPlacement_inv {U : Rectangle} {st : LoopState} {settings : CutSettings}
    {piece : CutPiece} {bi : ℕ} {c : PlacementCandidate}
    (hk : 0 ≤ settings.kerfMm)
    (hbi : bi < st.boardData.length)
    (hc : findBestPlacementOnBoard piece (boardFree st bi) settings = Option.some c)
    (hinv : LoopInv U st) :
    LoopInv U (applyPlacement settings st piece bi c) := by
  obtain ⟨hn, hmatch⟩ := findBest_some_valid piece (boardFree st bi) settings c hc
  obtain ⟨hmx, hmy, hmw, hml, -⟩ := hmatch
  have hFmem : (boardFree st bi).get ⟨c.nodeIndex, hn⟩ ∈ boardFree st bi :=
    List.get_mem _ _ _
  set F := (boardFree st bi).get ⟨c.nodeIndex, hn⟩ with hFdef
  have hpin : insideRect c.placementRect F := by
    refine ⟨le_of_eq hmx.symm, le_of_eq hmy.symm, ?_, ?_⟩ <;>
      simp only [Rectangle.xEnd, Rectangle.yEnd, hmx, hmy] <;> linarith
  have hsplit := splitFreeRectangle_props F c.placementRect settings hk hmx hmy hmw hml
  have hremoved : (boardFree st bi).getD c.nodeIndex default = F := by
    rw [List.getD_eq_getElem _ default hn]
    rfl
  -- the un-pruned replacement list for board bi
  set newList := (boardFree st bi).eraseIdx c.nodeIndex ++
    splitFreeRectangle F c.placementRect settings with hnewList
  have hbf : ∀ i, boardFree (applyPlacement settings st piece bi c) i =
      if i = bi then pruneFreeRectangles newList else boardFree st i := by
    intro i
    rw [boardFree_applyPlacement settings st piece bi c hbi i, hremoved]
  -- every member of the replacement list is inside F or an untouched free rectangle
  have hnewMem : ∀ G ∈ newList, G ∈ boardFree st bi ∨
      (insideRect G F ∧ ¬ overlapRects G c.placementRect) := by
    intro G hG
    rcases List.mem_append.mp hG with hG1 | hG2
    · exact Or.inl ((List.eraseIdx_sublist _ _).subset hG1)
    · exact Or.inr (hsplit.1 G hG2)
  -- the free rectangle F does not overlap any remaining free rectangle
  have hFdisj : ∀ G ∈ (boardFree st bi).eraseIdx c.nodeIndex, ¬ overlapRects F G := by
    intro G hG
    rcases rel_of_mem_eraseIdx (boardFree st bi) c.nodeIndex hn (hinv.freeDisj bi) G hG with
      h1 | h1
    · exact h1
    · exact not_overlapRects_comm h1
  have hnewPlacedDisj : ∀ G ∈ newList, ¬ overlapRects G c.placementRect := by
    intro G hG
    rcases List.mem_append.mp hG with hG1 | hG2
    · exact not_overlapRects_comm (not_overlap_of_inside hpin (hFdisj G hG1))
    · exact (hsplit.1 G hG2).2
  have hnewPairwise : newList.Pairwise (fun a b => ¬ overlapRects a b) := by
    rw [hnewList]
    refine List.pairwise_append.mpr ⟨(hinv.freeDisj bi).sublist (List.eraseIdx_sublist _ _),
      hsplit.2, ?_⟩
    intro G hG H hH
    exact not_overlapRects_comm
      (not_overlap_of_inside (hsplit.1 H hH).1 (hFdisj G hG))
  constructor
  · -- idxLt
    intro pp hpp
    rw [applyPlacement_length]
    rw [applyPlacement_placed] at hpp
    rcases List.mem_append.mp hpp with h1 | h2
    · exact hinv.idxLt pp h1
    · rcases List.mem_singleton.mp h2 with rfl
      exact hbi
  · -- placedInside
    intro pp hpp
    rw [applyPlacement_placed] at hpp
    rcases List.mem_append.mp hpp with h1 | h2
    · exact hinv.placedInside pp h1
    · rcases List.mem_singleton.mp h2 with rfl
      exact insideRect_trans hpin (hinv.freeInside bi F hFmem)
  · -- placedDisj
    rw [applyPlacement_placed]
    refine List.pairwise_append.mpr ⟨hinv.placedDisj, List.pairwise_singleton _ _, ?_⟩
    intro a ha b hb
    rcases List.mem_singleton.mp hb with rfl
    intro hab
    have hFa : ¬ overlapRects F a.rect :=
      hinv.freePlacedDisj bi F hFmem a ha hab
    exact not_overlapRects_comm (not_overlap_of_inside hpin hFa)
  · -- freeInside
    intro i G hG
    rw [hbf i] at hG
    by_cases h : i = bi
    · rw [if_pos h] at hG
      rcases hnewMem G (mem_of_mem_pruneFreeRectangles hG) with h1 | h2
      · exact hinv.freeInside bi G h1
      · exact insideRect_trans h2.1 (hinv.freeInside bi F hFmem)
    · rw [if_neg h] at hG
      exact hinv.freeInside i G hG
  · -- freePlacedDisj
    intro i G hG pp hpp heq
    rw [hbf i] at hG
    rw [applyPlacement_placed] at hpp
    rcases List.mem_append.mp hpp with hold | hnew
    · by_cases h : i = bi
      · rw [if_pos h] at hG
        subst h
        rcases hnewMem G (mem_of_mem_pruneFreeRectangles hG) with h1 | h2
        · exact hinv.freePlacedDisj i G h1 pp hold heq
        · exact not_overlap_of_inside h2.1
            (hinv.freePlacedDisj i F hFmem pp hold heq)
      · rw [if_neg h] at hG
        exact hinv.freePlacedDisj i G hG pp hold heq
    · rcases List.mem_singleton.mp hnew with rfl
      by_cases h : i = bi
      · rw [if_pos h] at hG
        exact hnewPlacedDisj G (mem_of_mem_pruneFreeRectangles hG)
      · exact absurd heq.symm h
  · -- freeDisj
    intro i
    rw [hbf i]
    by_cases h : i = bi
    · rw [if_pos h]
      exact pairwise_pruneFreeRectangles hnewPairwise
    · rw [if_neg h]
      exact hinv.freeDisj i

theorem loopInv_congr {U : Rectangle} {st st' : LoopState} (hinv : LoopInv U st)
    (hb : st'.boardData = st.boardData) (hp : st'.placedPiecesList = st.placedPiecesList) :
    LoopInv U st' := by
  have hbf : ∀ i, boardFree st' i = boardFree st i := by
    intro i
    show (st'.boardData.getD i default).freeRectangles = _
    rw [hb]
    rfl
  constructor
  · intro pp hpp
    rw [hb]
    exact hinv.idxLt pp (hp ▸ hpp)
  · intro pp hpp
    exact hinv.placedInside pp (hp ▸ hpp)
  · rw [hp]
    exact hinv.placedDisj
  · intro i G hG
    exact hinv.freeInside i G ((hbf i) ▸ hG)
  · intro i G hG pp hpp heq
    exact hinv.freePlacedDisj i G ((hbf i) ▸ hG) pp (hp ▸ hpp) heq
  · intro i
    rw [hbf i]
    exact hinv.freeDisj i

theorem markUnplaced_boardData (st : LoopState) (pid : String) :
    (markUnplaced st pid).boardData = st.boardData := by
  unfold markUnplaced
  split_ifs <;> rfl

theorem markUnplaced_placed (st : LoopState) (pid : String) :
    (markUnplaced st pid).placedPiecesList = st.placedPiecesList := by
  unfold markUnplaced
  split_ifs <;> rfl

theorem markUnplaced_inv {U : Rectangle} {st : LoopState} {pid : String}
    (hinv : LoopInv U st) : LoopInv U (markUnplaced st pid) :=
  loopInv_congr hinv (markUnplaced_boardData st pid) (markUnplaced_placed st pid)

theorem appendBoard_inv {U : Rectangle} {st : LoopState} (hinv : LoopInv U st) (idx : ℕ) :
    LoopInv U { st with boardData := st.boardData ++ [⟨idx, [U]⟩] } := by
  have hbf : ∀ i, boardFree { st with boardData := st.boardData ++ [⟨idx, [U]⟩] } i =
      if i < st.boardData.length then boardFree st i
      else if i = st.boardData.length then [U] else [] := by
    intro i
    show ((st.boardData ++ [(⟨idx, [U]⟩ : BoardRec)]).getD i default).freeRectangles = _
    by_cases h1 : i < st.boardData.length
    · rw [if_pos h1, getD_append_left _ _ _ h1]
      rfl
    · rw [if_neg h1]
      by_cases h2 : i = st.boardData.length
      · subst h2
        rw [if_pos rfl, getD_append_right_self]
      · rw [if_neg h2]
        have hge : (st.boardData ++ [(⟨idx, [U]⟩ : BoardRec)]).length ≤ i := by
          rw [List.length_append]
          simp only [List.length_singleton]
          omega
        rw [getD_ge_length _ _ hge]
        rfl
  constructor
  · intro pp hpp
    have := hinv.idxLt pp hpp
    rw [List.length_append]
    simp only [List.length_singleton]
    omega
  · exact hinv.placedInside
  · exact hinv.placedDisj
  · intro i G hG
    rw [hbf i] at hG
    by_cases h1 : i < st.boardData.length
    · rw [if_pos h1] at hG
      exact hinv.freeInside i G hG
    · rw [if_neg h1] at hG
      by_cases h2 : i = st.boardData.length
      · rw [if_pos h2] at hG
        rcases List.mem_singleton.mp hG with rfl
        exact insideRect_refl _
      · rw [if_neg h2] at hG
        cases hG
  · intro i G hG pp hpp heq
    rw [hbf i] at hG
    by_cases h1 : i < st.boardData.length
    · rw [if_pos h1] at hG
      exact hinv.freePlacedDisj i G hG pp hpp heq
    · rw [if_neg h1] at hG
      by_cases h2 : i = st.boardData.length
      · exfalso
        have := hinv.idxLt pp hpp
        omega
      · rw [if_neg h2] at hG
        cases hG
  · intro i
    rw [hbf i]
    by_cases h1 : i < st.boardData.length
    · rw [if_pos h1]
      exact hinv.freeDisj i
    · rw [if_neg h1]
      by_cases h2 : i = st.boardData.length
      · rw [if_pos h2]
        exact List.pairwise_singleton _ _
      · rw [if_neg h2]
        exact List.Pairwise.nil

theorem placePiece_inv {U : Rectangle} {settings : CutSettings}
    {uopt : Option FreeRectangle} {st : LoopState} {piece : CutPiece}
    (hk : 0 ≤ settings.kerfMm)
    (hu : ∀ r, uopt = Option.some r → r = U)
    (hinv : LoopInv U st) :
    LoopInv U (placePiece settings uopt st piece) := by
  cases hTry : tryExistingBoards piece settings st.boardData 0 with
  | some res =>
    obtain ⟨bi, c⟩ := res
    obtain ⟨k, hkk, hbik, hf⟩ := tryExistingBoards_some piece settings st.boardData 0 bi c hTry
    have hbi : bi < st.boardData.length := by omega
    have hfree : findBestPlacementOnBoard piece (boardFree st bi) settings = Option.some c := by
      have hgd : boardFree st bi = (st.boardData.get ⟨k, hkk⟩).freeRectangles := by
        show (st.boardData.getD bi default).freeRectangles = _
        rw [List.getD_eq_getElem _ default hbi]
        have hbk : bi = k := by omega
        subst hbk
        rfl
      rw [hgd]
      exact hf
    simp only [placePiece, hTry]
    exact applyPlacement_inv hk hbi hfree hinv
  | none =>
    cases huo : uopt with
    | none =>
      simp only [placePiece, hTry, huo]
      exact markUnplaced_inv hinv
    | some r =>
      have hrU : r = U := hu r huo
      cases hfb : findBestPlacementOnBoard piece [r] settings with
      | none =>
        simp only [placePiece, hTry, huo, hfb]
        exact markUnplaced_inv hinv
      | some c0 =>
        simp only [placePiece, hTry, huo, hfb]
        have hinv1 : LoopInv U
            { st with boardData := st.boardData ++ [⟨st.boardData.length, [r]⟩] } := by
          rw [hrU]
          exact appendBoard_inv hinv st.boardData.length
        have hfree1 : findBestPlacementOnBoard piece
            (boardFree { st with boardData :=
              st.boardData ++ [⟨st.boardData.length, [r]⟩] } st.boardData.length) settings =
            Option.some c0 := by
          have hbf1 : boardFree { st with boardData :=
              st.boardData ++ [⟨st.boardData.length, [r]⟩] } st.boardData.length = [r] := by
            show ((st.boardData ++ [(⟨st.boardData.length, [r]⟩ : BoardRec)]).getD
              st.boardData.length default).freeRectangles = [r]
            rw [getD_append_right_self]
          rw [hbf1]
          exact hfb
        have hlen1 : st.boardData.length <
            ({ st with boardData :=
              st.boardData ++ [⟨st.boardData.length, [r]⟩] } : LoopState).boardData.length := by
          show st.boardData.length < (st.boardData ++ [_]).length
          rw [List.length_append]
          simp
        exact applyPlacement_inv hk hlen1 hfree1 hinv1

theorem foldl_placePiece_inv {U : Rectangle} {settings : CutSettings}
    {uopt : Option FreeRectangle}
    (hk : 0 ≤ settings.kerfMm)
    (hu : ∀ r, uopt = Option.some r → r = U) :
    ∀ (instances : List CutPiece) (st : LoopState), LoopInv U st →
      LoopInv U (instances.foldl (placePiece settings uopt) st) := by
  intro instances
  induction instances with
  | nil => intro st h; exact h
  | cons q rest ih =>
    intro st h
    exact ih _ (placePiece_inv hk hu h)

theorem emptyState_inv (U : Rectangle) (w : List String) :
    LoopInv U ⟨[], [], [], w⟩ := by
  have hbf : ∀ i, boardFree (⟨[], [], [], w⟩ : LoopState) i = [] := by
    intro i
    show (([] : List BoardRec).getD i default).freeRectangles = []
    cases i <;> rfl
  constructor
  · intro pp hpp; cases hpp
  · intro pp hpp; cases hpp
  · exact List.Pairwise.nil
  · intro i G hG; rw [hbf i] at hG; cases hG
  · intro i G hG pp hpp; cases hpp
  · intro i; rw [hbf i]; exact List.Pairwise.nil

theorem initialState_inv (U : Rectangle) (w : List String) :
    LoopInv U ⟨[⟨0, [U]⟩], [], [], w⟩ := by
  have hbf : ∀ i, boardFree (⟨[⟨0, [U]⟩], [], [], w⟩ : LoopState) i =
      if i = 0 then [U] else [] := by
    intro i
    cases i with
    | zero => rfl
    | succ n =>
      rw [if_neg (Nat.succ_ne_zero n)]
      show (([⟨0, [U]⟩] : List BoardRec).getD (n + 1) default).freeRectangles = []
      have : (n + 1 : ℕ) ≥ ([(⟨0, [U]⟩ : BoardRec)] : List BoardRec).length := by
        simp
      rw [getD_ge_length _ _ this]
      rfl
  constructor
  · intro pp hpp; cases hpp
  · intro pp hpp; cases hpp
  · exact List.Pairwise.nil
  · intro i G hG
    rw [hbf i] at hG
    by_cases h : i = 0
    · rw [if_pos h] at hG
      rcases List.mem_singleton.mp hG with rfl
      exact insideRect_refl _
    · rw [if_neg h] at hG; cases hG
  · intro i G hG pp hpp; cases hpp
  · intro i
    rw [hbf i]
    by_cases h : i = 0
    · rw [if_pos h]; exact List.pairwise_singleton _ _
    · rw [if_neg h]; exact List.Pairwise.nil

/-! The loop invariant holds for the final state of every run. -/

theorem initialUsableRectOf_eq {input : OptimizerInput} {r : FreeRectangle}
    (h : initialUsableRectOf input = Option.some r) : r = usableRectOf input := by
  unfold initialUsableRectOf at h
  split_ifs at h with hc
  simpa [usableRectOf, usableWidthOf, usableLengthOf, eq_comm] using h

theorem finalStateOf_inv (input : OptimizerInput) (hk : 0 ≤ input.settings.kerfMm) :
    LoopInv (usableRectOf input) (finalStateOf input) := by
  apply foldl_placePiece_inv hk
  · exact fun r hr => initialUsableRectOf_eq hr
  · unfold initialStateOf
    cases hu : initialUsableRectOf input with
    | none => exact emptyState_inv _ _
    | some r =>
      have hrU : r = usableRectOf input := initialUsableRectOf_eq hu
      subst hrU
      exact initialState_inv _ _

theorem calculateLayout_placedPieces_cases (input : OptimizerInput) :
    (calculateLayout input).placedPieces = [] ∨
    (calculateLayout input).placedPieces = (finalStateOf input).placedPiecesList := by
  by_cases h : 0 < (validationErrors input).length
  · left
    unfold calculateLayout
    rw [if_pos h]
  · right
    unfold calculateLayout
    rw [if_neg h]

/-! Rotation bookkeeping for the grain constraint. -/

theorem findBest_rotated_canRotate {piece : CutPiece} {rs : List FreeRectangle}
    {settings : CutSettings} {c : PlacementCandidate}
    (h : findBestPlacementOnBoard piece rs settings = Option.some c)
    (hr : c.isRotated = true) : canRotatePiece settings piece = true := by
  obtain ⟨hn, hm⟩ := findBest_some_valid piece rs settings c h
  rcases hm.2.2.2.2 with ⟨hf, -, -⟩ | ⟨-, -, -, hcan⟩
  · rw [hf] at hr; cases hr
  · exact hcan

theorem applyPlacement_rotInv {pieces : List CutPiece} {st : LoopState}
    {settings : CutSettings} {piece : CutPiece} {bi : ℕ} {c : PlacementCandidate}
    (hrg : settings.respectGrain = true)
    (hq : ∃ p ∈ pieces, p.id = piece.id ∧ p.grainDirection = piece.grainDirection)
    (hcan : c.isRotated = true → canRotatePiece settings piece = true)
    (h : rotInv pieces st) :
    rotInv pieces (applyPlacement settings st piece bi c) := by
  intro pp hpp hrot
  rw [applyPlacement_placed] at hpp
  rcases List.mem_append.mp hpp with h1 | h2
  · exact h pp h1 hrot
  · rcases List.mem_singleton.mp h2 with rfl
    have hcr := hcan hrot
    rw [canRotatePiece, if_pos hrg] at hcr
    rw [decide_eq_true_eq] at hcr
    obtain ⟨p, hp, hpid, hpg⟩ := hq
    exact ⟨p, hp, hpid, by rw [hpg, hcr]⟩

theorem markUnplaced_rotInv {pieces : List CutPiece} {st : LoopState} {pid : String}
    (h : rotInv pieces st) : rotInv pieces (markUnplaced st pid) := by
  intro pp hpp
  rw [markUnplaced_placed] at hpp
  exact h pp hpp

theorem placePiece_rotInv {pieces : List CutPiece} {settings : CutSettings}
    {uopt : Option FreeRectangle} {st : LoopState} {piece : CutPiece}
    (hrg : settings.respectGrain = true)
    (hq : ∃ p ∈ pieces, p.id = piece.id ∧ p.grainDirection = piece.grainDirection)
    (h : rotInv pieces st) :
    rotInv pieces (placePiece settings uopt st piece) := by
  cases hTry : tryExistingBoards piece settings st.boardData 0 with
  | some res =>
    obtain ⟨bi, c⟩ := res
    obtain ⟨k, hkk, hbik, hf⟩ := tryExistingBoards_some piece settings st.boardData 0 bi c hTry
    simp only [placePiece, hTry]
    exact applyPlacement_rotInv hrg hq (findBest_rotated_canRotate hf) h
  | none =>
    cases huo : uopt with
    | none =>
      simp only [placePiece, hTry, huo]
      exact markUnplaced_rotInv h
    | some r =>
      cases hfb : findBestPlacementOnBoard piece [r] settings with
      | none =>
        simp only [placePiece, hTry, huo, hfb]
        exact markUnplaced_rotInv h
      | some c0 =>
        simp only [placePiece, hTry, huo, hfb]
        have h1 : rotInv pieces
            { st with boardData := st.boardData ++ [⟨st.boardData.length, [r]⟩] } := by
          intro pp hpp
          exact h pp hpp
        exact applyPlacement_rotInv hrg hq (findBest_rotated_canRotate hfb) h1

theorem foldl_placePiece_rotInv {pieces : List CutPiece} {settings : CutSettings}
    {uopt : Option FreeRectangle}
    (hrg : settings.respectGrain = true) :
    ∀ (instances : List CutPiece) (st : LoopState),
      (∀ q ∈ instances, ∃ p ∈ pieces, p.id = q.id ∧ p.grainDirection = q.grainDirection) →
      rotInv pieces st →
      rotInv pieces (instances.foldl (placePiece settings uopt) st) := by
  intro instances
  induction instances with
  | nil => intro st _ h; exact h
  | cons q rest ih =>
    intro st hq h
    exact ih _ (fun q' hq' => hq q' (List.mem_cons_self q rest |> fun _ => List.mem_cons_of_mem q hq'))
      (placePiece_rotInv hrg (hq q (List.mem_cons_self q rest)) h)

theorem mem_pieceInstancesOf (input : OptimizerInput) :
    ∀ q ∈ pieceInstancesOf input,
      ∃ p ∈ input.pieces, p.id = q.id ∧ p.grainDirection = q.grainDirection := by
  intro q hq
  have hq2 : q ∈ input.pieces.flatMap expandPiece :=
    (List.perm_insertionSort pieceBefore _).mem_iff.mp hq
  obtain ⟨p, hp, hqe⟩ := List.mem_flatMap.mp hq2
  obtain ⟨-, rfl⟩ := List.mem_replicate.mp hqe
  exact ⟨p, hp, rfl, rfl⟩

theorem finalStateOf_rotInv (input : OptimizerInput)
    (hrg : input.settings.respectGrain = true) :
    rotInv input.pieces (finalStateOf input) := by
  apply foldl_placePiece_rotInv hrg _ _ (mem_pieceInstancesOf input)
  unfold initialStateOf
  cases initialUsableRectOf input with
  | none => intro pp hpp; cases hpp
  | some r => intro pp hpp; cases hpp

/-! Claim theorems: invariants of the placement result. -/

/-- C1: for every valid input (positive board dimensions, non-negative
  kerf, edge trim and minimum scrap thresholds), no two distinct placed
  pieces of the same board overlap: the open interiors of their placed
  rectangles are disjoint. -/
theorem C1_placed_pieces_no_overlap (input : OptimizerInput)
    (hbw : 0 < input.board.widthMm) (hbl : 0 < input.board.lengthMm)
    (hk : 0 ≤ input.settings.kerfMm) (ht : 0 ≤ input.settings.edgeTrimMm)
    (hsw : 0 ≤ input.settings.minScrapWidthMm) (hsl : 0 ≤ input.settings.minScrapLengthMm) :
    (calculateLayout input).placedPieces.Pairwise
      (fun a b => a.boardIndex = b.boardIndex → ¬ overlapRects a.rect b.rect) := by
  rcases calculateLayout_placedPieces_cases input with h | h <;> rw [h]
  · exact List.Pairwise.nil
  · exact (finalStateOf_inv input hk).placedDisj

/-- Witness for C1 at the concrete scenario-B input. -/
theorem C1_placed_pieces_no_overlap_witness :
    (0 < inputB.board.widthMm ∧ 0 < inputB.board.lengthMm ∧ 0 ≤ inputB.settings.kerfMm ∧
      0 ≤ inputB.settings.edgeTrimMm ∧ 0 ≤ inputB.settings.minScrapWidthMm ∧
      0 ≤ inputB.settings.minScrapLengthMm) ∧
    (calculateLayout inputB).placedPieces.Pairwise
      (fun a b => a.boardIndex = b.boardIndex → ¬ overlapRects a.rect b.rect) :=
  ⟨⟨by norm_num [inputB], by norm_num [inputB], by norm_num [inputB, settingsB],
      by norm_num [inputB, settingsB], by norm_num [inputB, settingsB],
      by norm_num [inputB, settingsB]⟩,
    C1_placed_pieces_no_overlap inputB (by norm_num [inputB]) (by norm_num [inputB])
      (by norm_num [inputB, settingsB]) (by norm_num [inputB, settingsB])
      (by norm_num [inputB, settingsB]) (by norm_num [inputB, settingsB])⟩

/-- C2: every placed piece lies within the trimmed usable area on both
  axes. -/
theorem C2_placed_pieces_within_trim (input : OptimizerInput)
    (hbw : 0 < input.board.widthMm) (hbl : 0 < input.board.lengthMm)
    (hk : 0 ≤ input.settings.kerfMm) (ht : 0 ≤ input.settings.edgeTrimMm)
    (hsw : 0 ≤ input.settings.minScrapWidthMm) (hsl : 0 ≤ input.settings.minScrapLengthMm) :
    ∀ pp ∈ (calculateLayout input).placedPieces,
      input.settings.edgeTrimMm ≤ pp.x ∧ input.settings.edgeTrimMm ≤ pp.y ∧
      pp.x + pp.placedWidthMm ≤ input.board.widthMm - input.settings.edgeTrimMm ∧
      pp.y + pp.placedLengthMm ≤ input.board.lengthMm - input.settings.edgeTrimMm := by
  intro pp hpp
  rcases calculateLayout_placedPieces_cases input with h | h
  · rw [h] at hpp; cases hpp
  · rw [h] at hpp
    obtain ⟨h1, h2, h3, h4⟩ := (finalStateOf_inv input hk).placedInside pp hpp
    simp only [usableRectOf, PlacedPiece.rect, Rectangle.xEnd, Rectangle.yEnd] at h1 h2 h3 h4
    exact ⟨by linarith, by linarith, by linarith, by linarith⟩

/-- Witness for C2 at the concrete scenario-B input. -/
theorem C2_placed_pieces_within_trim_witness :
    (0 < inputB.board.widthMm ∧ 0 < inputB.board.lengthMm ∧ 0 ≤ inputB.settings.kerfMm ∧
      0 ≤ inputB.settings.edgeTrimMm ∧ 0 ≤ inputB.settings.minScrapWidthMm ∧
      0 ≤ inputB.settings.minScrapLengthMm) ∧
    (∀ pp ∈ (calculateLayout inputB).placedPieces,
      inputB.settings.edgeTrimMm ≤ pp.x ∧ inputB.settings.edgeTrimMm ≤ pp.y ∧
      pp.x + pp.placedWidthMm ≤ inputB.board.widthMm - inputB.settings.edgeTrimMm ∧
      pp.y + pp.placedLengthMm ≤ inputB.board.lengthMm - inputB.settings.edgeTrimMm) :=
  ⟨⟨by norm_num [inputB], by norm_num [inputB], by norm_num [inputB, settingsB],
      by norm_num [inputB, settingsB], by norm_num [inputB, settingsB],
      by norm_num [inputB, settingsB]⟩,
    C2_placed_pieces_within_trim inputB (by norm_num [inputB]) (by norm_num [inputB])
      (by norm_num [inputB, settingsB]) (by norm_num [inputB, settingsB])
      (by norm_num [inputB, settingsB]) (by norm_num [inputB, settingsB])⟩

/-- C9: with grain respected, no placed piece whose type has a length or
  width grain direction is ever rotated (piece-type ids are unique, per
  the data model). -/
theorem C9_grain_respected (input : OptimizerInput)
    (hrg : input.settings.respectGrain = true)
    (hids : input.pieces.Pairwise (fun a b => a.id ≠ b.id)) :
    ∀ pp ∈ (calculateLayout input).placedPieces, ∀ p ∈ input.pieces,
      p.id = pp.id →
      (p.grainDirection = GrainDirection.length ∨ p.grainDirection = GrainDirection.width) →
      pp.isRotated = false := by
  intro pp hpp p hp hpid hpg
  rcases calculateLayout_placedPieces_cases input with h | h
  · rw [h] at hpp; cases hpp
  · rw [h] at hpp
    by_contra hrot
    have hrot' : pp.isRotated = true := by
      cases hlit : pp.isRotated
      · exact absurd hlit hrot
      · rfl
    obtain ⟨p', hp', hpid', hpg'⟩ := finalStateOf_rotInv input hrg pp hpp hrot'
    have hne : p ≠ p' := by
      intro heq
      rw [heq, hpg'] at hpg
      rcases hpg with h1 | h1 <;> cases h1
    have hsymm : Symmetric (fun a b : CutPiece => a.id ≠ b.id) := by
      intro a b hab hba
      exact hab hba.symm
    have := hids.forall hsymm hp hp' hne
    exact this (hpid.trans hpid'.symm)

/-- C5: any fatal validation condition short-circuits the run with the
  documented degenerate result and a non-empty error list. -/
theorem C5_validation_short_circuit (input : OptimizerInput)
    (hfatal : (input.board.widthMm ≤ 0 ∨ input.board.lengthMm ≤ 0) ∨
      input.settings.kerfMm < 0 ∨ input.settings.edgeTrimMm < 0 ∨
      (input.settings.minScrapWidthMm < 0 ∨ input.settings.minScrapLengthMm < 0) ∨
      ((usableWidthOf input ≤ 0 ∨ usableLengthOf input ≤ 0) ∧
        0 < input.settings.edgeTrimMm)) :
    (calculateLayout input).placedPieces = [] ∧
    (calculateLayout input).unplacedPieces = input.pieces ∧
    (calculateLayout input).boardsUsed = 0 ∧
    (calculateLayout input).wastePercentage = 100 ∧
    (calculateLayout input).usableScrap = [] ∧
    (calculateLayout input).errors ≠ [] := by
  have herr : 0 < (validationErrors input).length := by
    unfold validationErrors
    simp only [List.length_append]
    rcases hfatal with h | h | h | h | h <;> rw [if_pos h] <;>
      simp only [List.length_singleton] <;> omega
  unfold calculateLayout
  rw [if_pos herr]
  exact ⟨rfl, rfl, rfl, rfl, rfl, List.ne_nil_of_length_pos herr⟩

/-- Witness for C5: a concrete input with negative kerf. -/
theorem C5_validation_short_circuit_witness :
    ((inputBad.board.widthMm ≤ 0 ∨ inputBad.board.lengthMm ≤ 0) ∨
      inputBad.settings.kerfMm < 0 ∨ inputBad.settings.edgeTrimMm < 0 ∨
      (inputBad.settings.minScrapWidthMm < 0 ∨ inputBad.settings.minScrapLengthMm < 0) ∨
      ((usableWidthOf inputBad ≤ 0 ∨ usableLengthOf inputBad ≤ 0) ∧
        0 < inputBad.settings.edgeTrimMm)) ∧
    ((calculateLayout inputBad).placedPieces = [] ∧
    (calculateLayout inputBad).unplacedPieces = inputBad.pieces ∧
    (calculateLayout inputBad).boardsUsed = 0 ∧
    (calculateLayout inputBad).wastePercentage = 100 ∧
    (calculateLayout inputBad).usableScrap = [] ∧
    (calculateLayout inputBad).errors ≠ []) :=
  ⟨Or.inr (Or.inl (by norm_num [inputBad])),
    C5_validation_short_circuit inputBad (Or.inr (Or.inl (by norm_num [inputBad])))⟩

/-- C7: scenario B — on a 100 by 100 board with no trim and no kerf, the
  first 60 by 60 instance is placed at the origin of board 0, the split
  leftovers cannot hold the second instance, which therefore opens board 1,
  and two boards are used. -/
theorem C7_scenario_B :
    (calculateLayout inputB).placedPieces =
      [⟨"pB", "squareB", 0, false, 60, 60, 0, 0⟩,
        ⟨"pB", "squareB", 1, false, 60, 60, 0, 0⟩] ∧
    (calculateLayout inputB).boardsUsed = 2 := by
  constructor <;>
  norm_num [calculateLayout, finalStateOf, initialStateOf, initialUsableRectOf, pieceInstancesOf,
    validationErrors, layoutWarnings0, unplaceableDueToSize, totalPiecesAreaOf, usableWidthOf,
    usableLengthOf, inputB, pieceB, settingsB, expandPiece, jsRound, pieceBefore,
    List.insertionSort, List.orderedInsert, placePiece, tryExistingBoards, applyPlacement,
    findBestPlacementOnBoard, findBestAux, betterThan, canRotatePiece, splitFreeRectangle,
    epsilon, pruneFreeRectangles, pruneOuter, pruneInner, rectContainedIn, markUnplaced,
    calculateStatisticsAndScrap, scrapAreaGe, pieceFitsUsable, boardFree, List.flatMap,
    List.replicate, List.foldl, List.filter, List.filterMap, List.range, List.range.loop,
    List.range', List.eraseIdx, List.getD, List.set, List.erase, List.getElem?_cons_zero,
    List.getElem?_cons_succ, List.getElem?_nil, Option.getD]

/-- Counterexample for C6: in scenario A the waste percentage does not
  equal one hundred times `(2430*1210 − 3*1200*600)` over
  `boardsUsed × board area`; the code's numerator is the full board area
  minus the placed area, kerf and trim margins included. -/
theorem C6_scenario_A_counterexample :
    (calculateLayout inputA).wastePercentage ≠
      100 * ((2430 * 1210 - 3 * (1200 * 600)) /
        (((calculateLayout inputA).boardsUsed : ℚ) * (2440 * 1220))) := by
  norm_num [calculateLayout, finalStateOf, initialStateOf, initialUsableRectOf, pieceInstancesOf,
    validationErrors, layoutWarnings0, unplaceableDueToSize, totalPiecesAreaOf, usableWidthOf,
    usableLengthOf, inputA, pieceA, settingsA, expandPiece, jsRound, pieceBefore,
    List.insertionSort, List.orderedInsert, placePiece, tryExistingBoards, applyPlacement,
    findBestPlacementOnBoard, findBestAux, betterThan, canRotatePiece, splitFreeRectangle,
    epsilon, pruneFreeRectangles, pruneOuter, pruneInner, rectContainedIn, markUnplaced,
    calculateStatisticsAndScrap, scrapAreaGe, pieceFitsUsable, boardFree, List.flatMap,
    List.replicate, List.foldl, List.filter, List.filterMap, List.range, List.range.loop,
    List.range', List.eraseIdx, List.getD, List.set, List.erase, List.getElem?_cons_zero,
    List.getElem?_cons_succ, List.getElem?_nil, Option.getD]

/-- C6 amended: scenario A places all three 1200 by 600 instances on one
  board, and the waste percentage is one hundred times one minus the
  placed area over `boardsUsed × full board area`. -/
theorem C6_scenario_A_amended :
    (calculateLayout inputA).boardsUsed = 1 ∧
    (calculateLayout inputA).placedPieces.length = 3 ∧
    (calculateLayout inputA).unplacedPieces = [] ∧
    (calculateLayout inputA).wastePercentage =
      100 * (1 - 3 * (1200 * 600) /
        (((calculateLayout inputA).boardsUsed : ℚ) * (2440 * 1220))) := by
  refine ⟨?_, ?_, ?_, ?_⟩ <;>
  norm_num [calculateLayout, finalStateOf, initialStateOf, initialUsableRectOf, pieceInstancesOf,
    validationErrors, layoutWarnings0, unplaceableDueToSize, totalPiecesAreaOf, usableWidthOf,
    usableLengthOf, inputA, pieceA, settingsA, expandPiece, jsRound, pieceBefore,
    List.insertionSort, List.orderedInsert, placePiece, tryExistingBoards, applyPlacement,
    findBestPlacementOnBoard, findBestAux, betterThan, canRotatePiece, splitFreeRectangle,
    epsilon, pruneFreeRectangles, pruneOuter, pruneInner, rectContainedIn, markUnplaced,
    calculateStatisticsAndScrap, scrapAreaGe, pieceFitsUsable, boardFree, List.flatMap,
    List.replicate, List.foldl, List.filter, List.filterMap, List.range, List.range.loop,
    List.range', List.eraseIdx, List.getD, List.set, List.erase, List.getElem?_cons_zero,
    List.getElem?_cons_succ, List.getElem?_nil, Option.getD]

/-- C3: the BSSF search returns exactly the first candidate of globally
  lowest score from the spec's candidate enumeration (free rectangles in
  list order, unrotated before rotated, rotation gated by the grain
  settings), and returns nothing precisely when no candidate is
  admissible. -/
theorem C3_findBestPlacement_bssf (piece : CutPiece) (rs : List FreeRectangle)
    (settings : CutSettings) :
    (findBestPlacementOnBoard piece rs settings = Option.none ↔
      bssfCandidates piece settings rs = []) ∧
    (∀ c, findBestPlacementOnBoard piece rs settings = Option.some c →
      ∃ k, ∃ hk : k < (bssfCandidates piece settings rs).length,
        (bssfCandidates piece settings rs).get ⟨k, hk⟩ = c ∧
        (∀ m, ∀ hm : m < k,
          c.score < ((bssfCandidates piece settings rs).get ⟨m, hm.trans hk⟩).score) ∧
        (∀ x ∈ bssfCandidates piece settings rs, c.score ≤ x.score)) := by
  constructor
  · rw [findBest_eq_foldBest]
    exact foldBest_none_iff _
  · intro c hc
    rw [findBest_eq_foldBest] at hc
    exact foldBest_none_spec _ c hc

/-- Witness for C3 at a concrete piece, rectangle list and settings. -/
theorem C3_findBestPlacement_bssf_witness :
    (findBestPlacementOnBoard pieceB [⟨0, 0, 100, 50⟩, ⟨0, 0, 70, 70⟩] settingsB =
        Option.none ↔
      bssfCandidates pieceB settingsB [⟨0, 0, 100, 50⟩, ⟨0, 0, 70, 70⟩] = []) ∧
    (∀ c, findBestPlacementOnBoard pieceB [⟨0, 0, 100, 50⟩, ⟨0, 0, 70, 70⟩] settingsB =
        Option.some c →
      ∃ k, ∃ hk : k < (bssfCandidates pieceB settingsB
          [⟨0, 0, 100, 50⟩, ⟨0, 0, 70, 70⟩]).length,
        (bssfCandidates pieceB settingsB [⟨0, 0, 100, 50⟩, ⟨0, 0, 70, 70⟩]).get ⟨k, hk⟩ = c ∧
        (∀ m, ∀ hm : m < k,
          c.score < ((bssfCandidates pieceB settingsB
            [⟨0, 0, 100, 50⟩, ⟨0, 0, 70, 70⟩]).get ⟨m, hm.trans hk⟩).score) ∧
        (∀ x ∈ bssfCandidates pieceB settingsB [⟨0, 0, 100, 50⟩, ⟨0, 0, 70, 70⟩],
          c.score ≤ x.score)) :=
  C3_findBestPlacement_bssf pieceB [⟨0, 0, 100, 50⟩, ⟨0, 0, 70, 70⟩] settingsB

/-- Counterexample for C4: with kerf 0 and a placed rectangle anchored at
  the free rectangle's corner and fully contained in it, the source split
  returns an empty list for a degenerate placed width of epsilon, while
  the claim's SLLA description emits leftover rectangles. -/
theorem C4_split_slla_counterexample :
    (0 ≤ settingsB.kerfMm ∧
      (⟨0, 0, epsilon, 50⟩ : Rectangle).x = (⟨0, 0, 100, 100⟩ : Rectangle).x ∧
      (⟨0, 0, epsilon, 50⟩ : Rectangle).y = (⟨0, 0, 100, 100⟩ : Rectangle).y) ∧
    splitFreeRectangle ⟨0, 0, 100, 100⟩ ⟨0, 0, epsilon, 50⟩ settingsB ≠
      sllaSpec ⟨0, 0, 100, 100⟩ ⟨0, 0, epsilon, 50⟩ settingsB := by
  refine ⟨⟨by norm_num [settingsB], rfl, rfl⟩, ?_⟩
  norm_num [splitFreeRectangle, sllaSpec, rectContainedIn, epsilon, settingsB]
  exact List.cons_ne_nil _ _

/-- C4 amended: for a placed rectangle anchored at the free rectangle's
  top-left corner, kerf at least zero, and both placed dimensions above
  the tolerance, the source split coincides with the spec's SLLA
  description, including the empty result when the containment check
  fails. -/
theorem C4_split_slla_amended (F p : Rectangle) (s : CutSettings)
    (hk : 0 ≤ s.kerfMm) (hx : p.x = F.x) (hy : p.y = F.y)
    (hw : epsilon < p.width) (hl : epsilon < p.length) :
    splitFreeRectangle F p s = sllaSpec F p s := by
  have he : (0 : ℚ) < epsilon := epsilon_pos
  unfold splitFreeRectangle sllaSpec
  by_cases hcont : rectContainedIn p F = true
  · rw [if_pos hcont]
    simp only [rectContainedIn, Bool.and_eq_true, decide_eq_true_eq] at hcont
    obtain ⟨⟨⟨-, -⟩, h3⟩, h4⟩ := hcont
    have hguard : ¬(p.width ≤ epsilon ∨ p.length ≤ epsilon ∨
        p.x < F.x - epsilon ∨ p.y < F.y - epsilon ∨
        p.x + p.width > F.x + F.width + epsilon ∨
        p.y + p.length > F.y + F.length + epsilon) := by
      push_neg
      exact ⟨by linarith, by linarith, by linarith, by linarith, by linarith, by linarith⟩
    rw [if_neg hguard]
  · rw [if_neg hcont]
    simp only [rectContainedIn, Bool.and_eq_true, decide_eq_true_eq, not_and] at hcont
    have hguard : p.width ≤ epsilon ∨ p.length ≤ epsilon ∨
        p.x < F.x - epsilon ∨ p.y < F.y - epsilon ∨
        p.x + p.width > F.x + F.width + epsilon ∨
        p.y + p.length > F.y + F.length + epsilon := by
      by_cases h3 : p.x + p.width ≤ F.x + F.width + epsilon
      · refine Or.inr (Or.inr (Or.inr (Or.inr (Or.inr ?_))))
        have := hcont ⟨⟨by linarith, by linarith⟩, h3⟩
        linarith [lt_of_not_le this]
      · exact Or.inr (Or.inr (Or.inr (Or.inr (Or.inl (lt_of_not_le h3)))))
    rw [if_pos hguard]

/-- Witness for the amended C4 at a concrete non-degenerate split. -/
theorem C4_split_slla_amended_witness :
    (0 ≤ settingsA.kerfMm ∧
      (⟨0, 0, 60, 60⟩ : Rectangle).x = (⟨0, 0, 100, 100⟩ : Rectangle).x ∧
      (⟨0, 0, 60, 60⟩ : Rectangle).y = (⟨0, 0, 100, 100⟩ : Rectangle).y ∧
      epsilon < (⟨0, 0, 60, 60⟩ : Rectangle).width ∧
      epsilon < (⟨0, 0, 60, 60⟩ : Rectangle).length) ∧
    splitFreeRectangle ⟨0, 0, 100, 100⟩ ⟨0, 0, 60, 60⟩ settingsA =
      sllaSpec ⟨0, 0, 100, 100⟩ ⟨0, 0, 60, 60⟩ settingsA :=
  ⟨⟨by norm_num [settingsA], rfl, rfl, by norm_num [epsilon], by norm_num [epsilon]⟩,
    C4_split_slla_amended ⟨0, 0, 100, 100⟩ ⟨0, 0, 60, 60⟩ settingsA
      (by norm_num [settingsA]) rfl rfl (by norm_num [epsilon]) (by norm_num [epsilon])⟩

/-! Characterization of the scrap extractor. -/

theorem mem_calculateStatisticsAndScrap (finalBoardData : List BoardRec)
    (settings : CutSettings) (s : UsableScrap) :
    s ∈ calculateStatisticsAndScrap finalBoardData settings ↔
      ∃ b ∈ finalBoardData, ∃ r ∈ b.freeRectangles,
        epsilon < r.width ∧ epsilon < r.length ∧
        ((settings.minScrapWidthMm - epsilon ≤ r.width ∧
          settings.minScrapLengthMm - epsilon ≤ r.length) ∨
         (settings.minScrapLengthMm - epsilon ≤ r.width ∧
          settings.minScrapWidthMm - epsilon ≤ r.length)) ∧
        s = ⟨r.x, r.y, r.width, r.length, b.index, r.width * r.length⟩ := by
  unfold calculateStatisticsAndScrap
  rw [(List.perm_insertionSort _ _).mem_iff, List.mem_flatMap]
  constructor
  · rintro ⟨b, hb, hs⟩
    rw [List.mem_filterMap] at hs
    obtain ⟨r, hr, heq⟩ := hs
    refine ⟨b, hb, r, hr, ?_⟩
    by_cases h1 : r.width ≤ epsilon ∨ r.length ≤ epsilon
    · rw [if_pos h1] at heq; cases heq
    · rw [if_neg h1] at heq
      by_cases h2 : (settings.minScrapWidthMm - epsilon ≤ r.width ∧
          settings.minScrapLengthMm - epsilon ≤ r.length) ∨
        (settings.minScrapLengthMm - epsilon ≤ r.width ∧
          settings.minScrapWidthMm - epsilon ≤ r.length)
      · rw [if_pos h2] at heq
        push_neg at h1
        exact ⟨h1.1, h1.2, h2, (Option.some.inj heq).symm⟩
      · rw [if_neg h2] at heq; cases heq
  · rintro ⟨b, hb, r, hr, hw, hl, hmin, rfl⟩
    refine ⟨b, hb, ?_⟩
    rw [List.mem_filterMap]
    refine ⟨r, hr, ?_⟩
    rw [if_neg (by push_neg; exact ⟨hw, hl⟩), if_pos hmin]

theorem calculateStatisticsAndScrap_sorted (finalBoardData : List BoardRec)
    (settings : CutSettings) :
    List.Sorted scrapAreaGe (calculateStatisticsAndScrap finalBoardData settings) := by
  unfold calculateStatisticsAndScrap
  exact List.sorted_insertionSort scrapAreaGe _

/-- Counterexample for C8: a degenerate free rectangle of width epsilon
  meets the claimed threshold criterion (minimum scrap width 0, length 50,
  within the tolerance) yet never appears in the scrap list, because the
  code first discards rectangles with a side at most epsilon. -/
theorem C8_usable_scrap_counterexample :
    ((0 : ℚ) - epsilon ≤ (⟨0, 0, epsilon, 60⟩ : Rectangle).width ∧
      (50 : ℚ) - epsilon ≤ (⟨0, 0, epsilon, 60⟩ : Rectangle).length) ∧
    calculateStatisticsAndScrap [⟨0, [⟨0, 0, epsilon, 60⟩]⟩]
      ⟨3, 5, 0, 50, true, OptimizationAlgo.waste⟩ = [] := by
  constructor
  · constructor <;> norm_num [epsilon]
  · norm_num [calculateStatisticsAndScrap, epsilon, List.insertionSort, scrapAreaGe,
      List.flatMap, List.filterMap]

/-- C8 amended: a final free rectangle appears in the scrap list iff both
  its sides exceed the tolerance and, in either orientation, it meets the
  minimum scrap thresholds within the tolerance; each entry carries the
  board index and the product area, and the list is sorted by
  non-increasing area. -/
theorem C8_usable_scrap_amended (finalBoardData : List BoardRec) (settings : CutSettings) :
    (∀ s : UsableScrap, s ∈ calculateStatisticsAndScrap finalBoardData settings ↔
      ∃ b ∈ finalBoardData, ∃ r ∈ b.freeRectangles,
        epsilon < r.width ∧ epsilon < r.length ∧
        ((settings.minScrapWidthMm - epsilon ≤ r.width ∧
          settings.minScrapLengthMm - epsilon ≤ r.length) ∨
         (settings.minScrapLengthMm - epsilon ≤ r.width ∧
          settings.minScrapWidthMm - epsilon ≤ r.length)) ∧
        s = ⟨r.x, r.y, r.width, r.length, b.index, r.width * r.length⟩) ∧
    List.Sorted scrapAreaGe (calculateStatisticsAndScrap finalBoardData settings) :=
  ⟨fun s => mem_calculateStatisticsAndScrap finalBoardData settings s,
    calculateStatisticsAndScrap_sorted finalBoardData settings⟩

/-- Witness for the amended C8: with both minimum scrap thresholds at 50,
  a 60 by 60 leftover is reported and a 40 by 40 leftover is not. -/
theorem C8_usable_scrap_amended_witness :
    (⟨0, 0, 60, 60, 0, 3600⟩ : UsableScrap) ∈
      calculateStatisticsAndScrap [⟨0, [⟨0, 0, 40, 40⟩, ⟨0, 0, 60, 60⟩]⟩] settingsB ∧
    (⟨0, 0, 40, 40, 0, 1600⟩ : UsableScrap) ∉
      calculateStatisticsAndScrap [⟨0, [⟨0, 0, 40, 40⟩, ⟨0, 0, 60, 60⟩]⟩] settingsB := by
  constructor
  · refine ((C8_usable_scrap_amended [⟨0, [⟨0, 0, 40, 40⟩, ⟨0, 0, 60, 60⟩]⟩] settingsB).1
      _).mpr ?_
    refine ⟨⟨0, [⟨0, 0, 40, 40⟩, ⟨0, 0, 60, 60⟩]⟩, by simp, ⟨0, 0, 60, 60⟩, by simp, ?_⟩
    refine ⟨by norm_num [epsilon], by norm_num [epsilon], ?_, by norm_num⟩
    exact Or.inl ⟨by norm_num [settingsB, epsilon], by norm_num [settingsB, epsilon]⟩
  · intro hmem
    have h := ((C8_usable_scrap_amended [⟨0, [⟨0, 0, 40, 40⟩, ⟨0, 0, 60, 60⟩]⟩] settingsB).1
      _).mp hmem
    obtain ⟨b, hb, r, hr, hw, hl, hmin, heq⟩ := h
    rcases List.mem_singleton.mp hb with rfl
    rcases List.mem_cons.mp hr with rfl | hr2
    · rcases hmin with ⟨h1, -⟩ | ⟨-, h1⟩ <;> norm_num [settingsB, epsilon] at h1
    · rcases List.mem_singleton.mp hr2 with rfl
      norm_num at heq

/-! The pruner returns an antichain of the containment relation and is
idempotent. -/

theorem pruneInner_resolved (rects : List Rectangle) (i : ℕ) :
    ∀ (js kept : List ℕ), kept.Nodup → (∀ j ∈ js, i < j) → i ∈ kept →
      ∀ j ∈ js, j ∈ pruneInner rects i js kept → i ∈ pruneInner rects i js kept →
        rectsResolved rects i j := by
  intro js
  induction js with
  | nil => intro kept _ _ _ j hj; cases hj
  | cons j0 js ih =>
    intro kept hnd hgt hi j hj hjkept hikept
    have hij0 : i ≠ j0 := Nat.ne_of_lt (hgt j0 (List.mem_cons_self j0 js))
    simp only [pruneInner] at hjkept hikept
    by_cases hmem : j0 ∈ kept
    · rw [if_pos hmem] at hjkept hikept
      by_cases hA : (rectContainedIn (rects.getD i default) (rects.getD j0 default) &&
          rectContainedIn (rects.getD j0 default) (rects.getD i default)) = true
      · rw [if_pos hA] at hjkept hikept
        rcases List.mem_cons.mp hj with rfl | hjs
        · exfalso
          have hsub := (pruneInner_sublist rects i js (kept.erase j)).subset hjkept
          exact ((hnd.mem_erase_iff).mp hsub).1 rfl
        · exact ih (kept.erase j0) (hnd.erase j0)
            (fun x hx => hgt x (List.mem_cons_of_mem j0 hx))
            ((List.mem_erase_of_ne hij0).mpr hi) j hjs hjkept hikept
      · rw [if_neg hA] at hjkept hikept
        by_cases hB : rectContainedIn (rects.getD i default) (rects.getD j0 default) = true
        · rw [if_pos hB] at hikept
          exfalso
          exact ((hnd.mem_erase_iff).mp hikept).1 rfl
        · rw [if_neg hB] at hjkept hikept
          by_cases hC : rectContainedIn (rects.getD j0 default) (rects.getD i default) = true
          · rw [if_pos hC] at hjkept hikept
            rcases List.mem_cons.mp hj with rfl | hjs
            · exfalso
              have hsub := (pruneInner_sublist rects i js (kept.erase j)).subset hjkept
              exact ((hnd.mem_erase_iff).mp hsub).1 rfl
            · exact ih (kept.erase j0) (hnd.erase j0)
                (fun x hx => hgt x (List.mem_cons_of_mem j0 hx))
                ((List.mem_erase_of_ne hij0).mpr hi) j hjs hjkept hikept
          · rw [if_neg hC] at hjkept hikept
            rcases List.mem_cons.mp hj with rfl | hjs
            · exact ⟨by simpa using hB, by simpa using hC⟩
            · exact ih kept hnd (fun x hx => hgt x (List.mem_cons_of_mem j0 hx))
                hi j hjs hjkept hikept
    · rw [if_neg hmem] at hjkept hikept
      rcases List.mem_cons.mp hj with rfl | hjs
      · exfalso
        exact hmem ((pruneInner_sublist rects i js kept).subset hjkept)
      · exact ih kept hnd (fun x hx => hgt x (List.mem_cons_of_mem j0 hx))
          hi j hjs hjkept hikept

theorem pruneOuter_resolved (rects : List Rectangle) :
    ∀ (k m : ℕ) (kept : List ℕ), m + k = rects.length → kept.Nodup →
      (∀ x ∈ kept, x < rects.length) →
      (∀ a b, a ∈ kept → b ∈ kept → a < b → a < m → rectsResolved rects a b) →
      ∀ a b, a ∈ pruneOuter rects (List.range' m k) kept →
        b ∈ pruneOuter rects (List.range' m k) kept → a < b →
        rectsResolved rects a b := by
  intro k
  induction k with
  | zero =>
    intro m kept hmk hnd hbound hres a b ha hb hab
    exact hres a b ha hb hab (by
      have := hbound a ha
      omega)
  | succ k ih =>
    intro m kept hmk hnd hbound hres a b ha hb hab
    rw [List.range'_succ m k 1] at ha hb
    simp only [pruneOuter] at ha hb
    by_cases hmem : m ∈ kept
    · rw [if_pos hmem] at ha hb
      set K1 := pruneInner rects m
        (List.range' (m + 1) (rects.length - (m + 1))) kept with hK1
      have hK1sub : List.Sublist K1 kept := pruneInner_sublist rects m _ kept
      refine ih (m + 1) K1 (by omega) (hnd.sublist hK1sub)
        (fun x hx => hbound x (hK1sub.subset hx)) ?_ a b ha hb hab
      intro a' b' ha' hb' hab' ham
      by_cases ham' : a' < m
      · exact hres a' b' (hK1sub.subset ha') (hK1sub.subset hb') hab' ham'
      · have haeq : a' = m := by omega
        subst haeq
        have hblt : b' < rects.length := hbound b' (hK1sub.subset hb')
        have hbmem : b' ∈ List.range' (a' + 1) (rects.length - (a' + 1)) := by
          rw [List.mem_range'_1]
          constructor
          · omega
          · have : a' < rects.length := hbound a' hmem
            omega
        exact pruneInner_resolved rects a' _ kept hnd
          (fun j hj => ((List.mem_range'_1).mp hj).1) hmem b' hbmem hb' ha'
    · rw [if_neg hmem] at ha hb
      refine ih (m + 1) kept (by omega) hnd hbound ?_ a b ha hb hab
      intro a' b' ha' hb' hab' ham
      by_cases ham' : a' < m
      · exact hres a' b' ha' hb' hab' ham'
      · have haeq : a' = m := by omega
        subst haeq
        exact absurd ha' hmem

theorem pruneOuter_kept_resolved (l : List Rectangle) :
    ∀ a b, a ∈ pruneOuter l (List.range l.length) (List.range l.length) →
      b ∈ pruneOuter l (List.range l.length) (List.range l.length) → a < b →
      rectsResolved l a b := by
  have hrange : List.range l.length = List.range' 0 l.length := List.range_eq_range' _
  rw [hrange]
  intro a b ha hb hab
  refine pruneOuter_resolved l l.length 0 (List.range' 0 l.length) (by omega)
    (by rw [← hrange]; exact List.nodup_range _)
    (fun x hx => by
      rw [← hrange] at hx
      exact List.mem_range.mp hx) ?_ a b ha hb hab
  intro a' b' _ _ _ ham
  exact absurd ham (Nat.not_lt_zero a')

theorem pruneFreeRectangles_antichain (l : List Rectangle) :
    ∀ p q, p < (pruneFreeRectangles l).length → q < (pruneFreeRectangles l).length → p ≠ q →
      rectContainedIn ((pruneFreeRectangles l).getD p default)
        ((pruneFreeRectangles l).getD q default) = false := by
  intro p q hp hq hpq
  have hsub0 : List.Sublist
      (pruneOuter l (List.range l.length) (List.range l.length)) (List.range l.length) :=
    pruneOuter_sublist l _ _
  have hres2 : ∀ a b, a ∈ pruneOuter l (List.range l.length) (List.range l.length) →
      b ∈ pruneOuter l (List.range l.length) (List.range l.length) → a ≠ b →
      rectContainedIn (l.getD a default) (l.getD b default) = false := by
    intro a b ha hb hab
    rcases Nat.lt_or_ge a b with h | h
    · exact (pruneOuter_kept_resolved l a b ha hb h).1
    · have h2 : b < a := by omega
      exact (pruneOuter_kept_resolved l b a hb ha h2).2
  simp only [pruneFreeRectangles] at hp hq ⊢
  split_ifs at hp hq ⊢ with hlen hkeep
  · exact absurd (by omega : p = q) hpq
  · have hkeq : pruneOuter l (List.range l.length) (List.range l.length) =
        List.range l.length := by
      apply hsub0.eq_of_length
      rw [hkeep, List.length_range]
    have h := hres2 p q (by rw [hkeq]; exact List.mem_range.mpr hp)
      (by rw [hkeq]; exact List.mem_range.mpr hq) hpq
    rwa [List.getD_eq_getElem _ default hp, List.getD_eq_getElem _ default hq] at h ⊢
  · set K := pruneOuter l (List.range l.length) (List.range l.length) with hK
    have hplen : p < K.length := by simpa using hp
    have hqlen : q < K.length := by simpa using hq
    have hnd : K.Nodup := hsub0.nodup (List.nodup_range _)
    rw [List.getD_eq_getElem _ default hp, List.getD_eq_getElem _ default hq]
    simp only [List.getElem_map]
    have hne : K[p] ≠ K[q] := by
      intro heq
      apply hpq
      have := (hnd.get_inj_iff).mp (show K.get ⟨p, hplen⟩ = K.get ⟨q, hqlen⟩ from heq)
      exact congrArg Fin.val this
    exact hres2 K[p] K[q] (K.getElem_mem hplen) (K.getElem_mem hqlen) hne

theorem pruneInner_noop (rects : List Rectangle) (i : ℕ)
    (hres : ∀ p q, p < rects.length → q < rects.length → p ≠ q →
      rectContainedIn (rects.getD p default) (rects.getD q default) = false) :
    ∀ (js kept : List ℕ), (∀ j ∈ js, i < j ∧ j < rects.length) → i < rects.length →
      pruneInner rects i js kept = kept := by
  intro js
  induction js with
  | nil => intro kept _ _; rfl
  | cons j0 js ih =>
    intro kept hj hi
    have hj0 := hj j0 (List.mem_cons_self j0 js)
    have hij0 : i ≠ j0 := Nat.ne_of_lt hj0.1
    have h1 : rectContainedIn (rects.getD i default) (rects.getD j0 default) = false :=
      hres i j0 hi hj0.2 hij0
    have h2 : rectContainedIn (rects.getD j0 default) (rects.getD i default) = false :=
      hres j0 i hj0.2 hi (Ne.symm hij0)
    simp only [pruneInner, h1, h2, Bool.false_and, Bool.and_false, if_false]
    by_cases hmem : j0 ∈ kept
    · rw [if_pos hmem]
      simp only [Bool.false_eq_true, if_false]
      exact ih kept (fun x hx => hj x (List.mem_cons_of_mem j0 hx)) hi
    · rw [if_neg hmem]
      exact ih kept (fun x hx => hj x (List.mem_cons_of_mem j0 hx)) hi

theorem pruneOuter_noop (rects : List Rectangle)
    (hres : ∀ p q, p < rects.length → q < rects.length → p ≠ q →
      rectContainedIn (rects.getD p default) (rects.getD q default) = false) :
    ∀ (idxs kept : List ℕ), (∀ x ∈ idxs, x < rects.length) →
      pruneOuter rects idxs kept = kept := by
  intro idxs
  induction idxs with
  | nil => intro kept _; rfl
  | cons i0 idxs ih =>
    intro kept hx
    have hi0 := hx i0 (List.mem_cons_self i0 idxs)
    simp only [pruneOuter]
    rw [pruneInner_noop rects i0 hres _ kept
      (fun j hj => ⟨((List.mem_range'_1).mp hj).1, by
        have := ((List.mem_range'_1).mp hj).2
        omega⟩) hi0]
    split_ifs with hmem <;> exact ih kept (fun x h => hx x (List.mem_cons_of_mem i0 h))

theorem pruneFreeRectangles_noop (l : List Rectangle)
    (hres : ∀ p q, p < l.length → q < l.length → p ≠ q →
      rectContainedIn (l.getD p default) (l.getD q default) = false) :
    pruneFreeRectangles l = l := by
  simp only [pruneFreeRectangles]
  split_ifs with hlen hkeep
  · rfl
  · rfl
  · exfalso
    apply hkeep
    rw [pruneOuter_noop l hres (List.range l.length) (List.range l.length)
      (fun x hx => List.mem_range.mp hx)]
    exact List.length_range _

/-- C10: the pruner returns a subsequence of its input in which no kept
  rectangle is contained (within the tolerance) in a kept rectangle at a
  different position, and it is idempotent. -/
theorem C10_prune_antichain_idempotent (l : List Rectangle) :
    List.Sublist (pruneFreeRectangles l) l ∧
    (∀ p q, p < (pruneFreeRectangles l).length → q < (pruneFreeRectangles l).length →
      p ≠ q →
      rectContainedIn ((pruneFreeRectangles l).getD p default)
        ((pruneFreeRectangles l).getD q default) = false) ∧
    pruneFreeRectangles (pruneFreeRectangles l) = pruneFreeRectangles l := by
  refine ⟨pruneFreeRectangles_sublist l, pruneFreeRectangles_antichain l, ?_⟩
  apply pruneFreeRectangles_noop
  intro p q hp hq hpq
  exact pruneFreeRectangles_antichain l p q hp hq hpq

/-- Witness for C10 at a concrete rectangle list with one contained
  rectangle. -/
theorem C10_prune_antichain_idempotent_witness :
    List.Sublist
      (pruneFreeRectangles [⟨0, 0, 10, 10⟩, ⟨0, 0, 5, 5⟩, ⟨20, 0, 5, 5⟩])
      [⟨0, 0, 10, 10⟩, ⟨0, 0, 5, 5⟩, ⟨20, 0, 5, 5⟩] ∧
    (∀ p q, p < (pruneFreeRectangles
        [⟨0, 0, 10, 10⟩, ⟨0, 0, 5, 5⟩, ⟨20, 0, 5, 5⟩]).length →
      q < (pruneFreeRectangles
        [⟨0, 0, 10, 10⟩, ⟨0, 0, 5, 5⟩, ⟨20, 0, 5, 5⟩]).length → p ≠ q →
      rectContainedIn
        ((pruneFreeRectangles [⟨0, 0, 10, 10⟩, ⟨0, 0, 5, 5⟩, ⟨20, 0, 5, 5⟩]).getD p default)
        ((pruneFreeRectangles [⟨0, 0, 10, 10⟩, ⟨0, 0, 5, 5⟩, ⟨20, 0, 5, 5⟩]).getD q default) =
        false) ∧
    pruneFreeRectangles (pruneFreeRectangles [⟨0, 0, 10, 10⟩, ⟨0, 0, 5, 5⟩, ⟨20, 0, 5, 5⟩]) =
      pruneFreeRectangles [⟨0, 0, 10, 10⟩, ⟨0, 0, 5, 5⟩, ⟨20, 0, 5, 5⟩] :=
  C10_prune_antichain_idempotent [⟨0, 0, 10, 10⟩, ⟨0, 0, 5, 5⟩, ⟨20, 0, 5, 5⟩]

/-- Witness for C9 at the concrete scenario-B input. -/
theorem C9_grain_respected_witness :
    (inputB.settings.respectGrain = true ∧
      inputB.pieces.Pairwise (fun a b => a.id ≠ b.id)) ∧
    (∀ pp ∈ (calculateLayout inputB).placedPieces, ∀ p ∈ inputB.pieces,
      p.id = pp.id →
      (p.grainDirection = GrainDirection.length ∨ p.grainDirection = GrainDirection.width) →
      pp.isRotated = false) :=
  ⟨⟨by norm_num [inputB, settingsB], by
      simp [inputB, List.pairwise_singleton]⟩,
    C9_grain_respected inputB (by norm_num [inputB, settingsB]) (by
      simp [inputB, List.pairwise_singleton])⟩

end CuttingBoard
